import Mathlib

/-!
Verification of the upload stage of the sugar asset-publishing pipeline
(src/upload/process.rs).  The change-detection loop, the bounded-concurrency
upload scheduler and the run controller are embedded as executable Lean
functions; cache keys, which the source stores as the decimal strings of the
asset indices, are modelled by the indices themselves (decimal rendering is
injective, so nothing is lost).
-/

/-- File path reduced to the two components the upload code inspects:
file_stem (the asset index, since asset files are named by index) and
extension. -/
structure FPathM where
  stem : Nat
  ext : String
deriving DecidableEq, Repr, Inhabited

/-- Cache record for one asset index, following the cache file format of the
spec (image and metadata hashes and links, optional animation hash and link,
on_chain flag).  The source refers to the image link both as image_link and
as media_link; it is one field of the persisted record. -/
structure CacheItem where
  image_hash : String
  image_link : String
  metadata_hash : String
  metadata_link : String
  animation_hash : Option String
  animation_link : Option String
  on_chain : Bool
deriving DecidableEq, Repr, Inhabited

/-- One logical asset: paths of the media and metadata files plus the content
fingerprints computed for the current run. -/
structure AssetPair where
  media : FPathM
  metadata : FPathM
  image_hash : String
  metadata_hash : String
  animation_hash : Option String
deriving DecidableEq, Repr, Inhabited

/-- Modelled from the spec: the data-type tag of an upload task is Media or
Metadata (the DataType enum lives in a file outside the excerpt; the source
also writes DataType.Image for the media tag of the image stage). -/
inductive DataType where
  | Media
  | Metadata
deriving DecidableEq, Repr, Inhabited

/-- Cache contents: the ordered association list of index to CacheItem that
the source keeps in an IndexMap. -/
abbrev Cache := List (Nat × CacheItem)

/-- Lookup of a cache entry by key (IndexMap get). -/
def cacheGet : Cache → Nat → Option CacheItem
  | [], _ => none
  | (k, it) :: rest, q => if k = q then some it else cacheGet rest q

/-- Insert into the cache (IndexMap insert): an existing key is overwritten in
place, a new key is appended at the end. -/
def cacheInsert : Cache → Nat → CacheItem → Cache
  | [], q, v => [(q, v)]
  | (k, it) :: rest, q, v =>
      if k = q then (q, v) :: rest else (k, it) :: cacheInsert rest q v

/-- In-place update of an existing cache entry (IndexMap get_mut followed by
field assignments); a missing key leaves the cache unchanged. -/
def cacheModify : Cache → Nat → (CacheItem → CacheItem) → Cache
  | [], _, _ => []
  | (k, it) :: rest, q, f =>
      if k = q then (k, f it) :: rest else (k, it) :: cacheModify rest q f

/-- Key list of a cache. -/
def keysOf (c : Cache) : List Nat := c.map Prod.fst

/-- Membership of a key in the cache. -/
def cacheHas (c : Cache) (k : Nat) : Bool := (cacheGet c k).isSome

/-- Modelled from the spec: AssetPair.into_cache_item (defined in the cache
module, outside the excerpt) builds a fresh CacheItem from the current
fingerprints with empty links; the animation link slot is present (and empty)
exactly when the pair carries an animation fingerprint. -/
def intoCacheItem (p : AssetPair) : CacheItem :=
  { image_hash := p.image_hash
    image_link := ""
    metadata_hash := p.metadata_hash
    metadata_link := ""
    animation_hash := p.animation_hash
    animation_link := p.animation_hash.map (fun _ => "")
    on_chain := false }

/-- The three schedules produced by change detection (struct AssetType of the
source: image, metadata and animation index lists). -/
structure AssetType where
  image : List Nat
  metadata : List Nat
  animation : List Nat
deriving DecidableEq, Repr, Inhabited

/-- One iteration of the change-detection loop of process_upload for a single
(index, pair): the match on the prior cache entry, the animation condition,
and the four decision branches, translated clause by clause from the source. -/
def detectStep (index : Nat) (pair : AssetPair) (cache : Cache)
    (indices : AssetType) : Cache × AssetType :=
  match cacheGet cache index with
  | some item =>
      let animation_conditon : Bool :=
        if item.animation_hash.isSome && item.animation_link.isSome then
          decide (item.animation_hash ≠ pair.animation_hash) ||
            decide (item.animation_link = some "")
        else false
      if item.image_hash ≠ pair.image_hash ∨ item.image_link = "" then
        -- the entire item is replaced to trigger the image and metadata upload
        let item_clone := item
        let cache' := cacheInsert cache index (intoCacheItem pair)
        let indices' := { indices with
          image := indices.image ++ [index]
          metadata := indices.metadata ++ [index] }
        if item_clone.animation_hash.isSome || item_clone.animation_link.isSome then
          (cache', { indices' with animation := indices'.animation ++ [index] })
        else
          (cache', indices')
      else if animation_conditon then
        (cacheInsert cache index (intoCacheItem pair),
         { indices with
             animation := indices.animation ++ [index]
             image := indices.image ++ [index]
             metadata := indices.metadata ++ [index] })
      else if item.metadata_hash ≠ pair.metadata_hash ∨ item.metadata_link = "" then
        (cacheModify cache index (fun it =>
           { it with
               metadata_hash := pair.metadata_hash
               metadata_link := ""
               on_chain := false }),
         { indices with metadata := indices.metadata ++ [index] })
      else
        (cache, indices)
  | none =>
      let cache' := cacheInsert cache index (intoCacheItem pair)
      let indices' := { indices with
        image := indices.image ++ [index]
        metadata := indices.metadata ++ [index] }
      if pair.animation_hash.isSome then
        (cache', { indices' with animation := indices'.animation ++ [index] })
      else
        (cache', indices')

/-- Result of the change-detection loop: the mutated cache, the schedules, and
whether the per-asset metadata check aborted the run early. -/
structure DetectOut where
  cache : Cache
  indices : AssetType
  aborted : Bool
deriving DecidableEq, Repr, Inhabited

/-- Change-detection loop over all asset pairs.  metaOk abstracts the
per-asset metadata parse and config cross-check (symbol and
seller_fee_basis_points, performed with external collaborators); when it
fails, the loop returns early with aborted set, leaving later pairs
unprocessed, exactly as the early return in the source does. -/
def changeDetect (metaOk : AssetPair → Bool) :
    List (Nat × AssetPair) → Cache → AssetType → DetectOut
  | [], cache, indices => ⟨cache, indices, false⟩
  | (i, p) :: rest, cache, indices =>
      let st := detectStep i p cache indices
      if metaOk p then changeDetect metaOk rest st.1 st.2
      else ⟨st.1, st.2, true⟩

/-- Sanity check after change detection: fatal when more image indices than
metadata indices are scheduled. -/
def imageGuardErr (indices : AssetType) : Option String :=
  if indices.image.length > indices.metadata.length then
    some "There are more image files to upload than metadata" else none

/-- Unit of work handed to the storage backend (struct AssetInfo of the
source). -/
structure AssetInfo where
  asset_id : Nat
  file_path : String
  media_link : String
  data_type : DataType
  content_type : String
deriving DecidableEq, Repr, Inhabited

/-- Lookup of an asset pair by index in the asset map. -/
def assetsGet : List (Nat × AssetPair) → Nat → Option AssetPair
  | [], _ => none
  | (k, v) :: rest, q => if k = q then some v else assetsGet rest q

/-- Path chosen for an upload task based on the data type. -/
def pathFor (dt : DataType) (p : AssetPair) : FPathM :=
  match dt with
  | DataType.Media => p.media
  | DataType.Metadata => p.metadata

/-- First loop of upload_data: resolve each scheduled index to its asset pair
(a missing index is a typed error), collect the chosen file paths and the set
of their extensions. -/
def collectPaths (assets : List (Nat × AssetPair)) (dt : DataType) :
    List Nat → List String → List FPathM → Except String (List String × List FPathM)
  | [], exts, paths => Except.ok (exts, paths)
  | i :: rest, exts, paths =>
      match assetsGet assets i with
      | none => Except.error ("Failed to get asset at index " ++ toString i)
      | some item =>
          let fp := pathFor dt item
          let exts' := if fp.ext ∈ exts then exts else exts ++ [fp.ext]
          collectPaths assets dt rest exts' (paths ++ [fp])

/-- Second loop of upload_data: build one AssetInfo per path; the cache entry
for the asset id (the file stem) must exist, a missing entry is a typed
error. -/
def buildTasks (cache : Cache) (dt : DataType) (ct : String) :
    List FPathM → Except String (List AssetInfo)
  | [] => Except.ok []
  | fp :: rest =>
      match cacheGet cache fp.stem with
      | none => Except.error ("Failed to get config item at index " ++ toString fp.stem)
      | some item =>
          match buildTasks cache dt ct rest with
          | Except.error e => Except.error e
          | Except.ok ts =>
              Except.ok ({ asset_id := fp.stem
                           file_path := toString fp.stem ++ "." ++ fp.ext
                           media_link := item.image_link
                           data_type := dt
                           content_type := ct } :: ts)

/-- Batch preparation of upload_data before any dispatch: path collection, the
single-extension check, content-type derivation, and task construction. -/
def uploadBuild (assets : List (Nat × AssetPair)) (cache : Cache)
    (indices : List Nat) (dt : DataType) : Except String (List AssetInfo) :=
  match collectPaths assets dt indices [] [] with
  | Except.error e => Except.error e
  | Except.ok (exts, paths) =>
      if exts.length = 1 then
        let ext := exts.headD ""
        let ct := match dt with
          | DataType.Media => "image/" ++ ext
          | DataType.Metadata => "application/json"
        buildTasks cache dt ct paths
      else Except.error "Invalid file extension"

/-- Outcome of one completed upload operation, as observed by the scheduler
loop: a link on success, or an error message (covering both the task-level
failure and the join failure branch of select_all, which the source treats
identically). -/
inductive UpOutcome where
  | okLink (link : String)
  | failMsg (msg : String)
deriving DecidableEq, Repr, Inhabited

/-- One externally determined scheduler event: the state of the interruption
flag at the top of the loop, which in-flight operation finishes first
(select_all is first-completion, not FIFO), and its outcome. -/
structure Decision where
  interrupt : Bool
  pick : Nat
  outcome : UpOutcome
deriving DecidableEq, Repr, Inhabited

/-- State of the scheduler loop of upload_data: the undispatched queue, the
in-flight window, the cache, collected per-task errors, the number of cache
checkpoints written so far, and whether an unwrap panicked. -/
structure SchedState where
  tasks : List AssetInfo
  handles : List AssetInfo
  cache : Cache
  errors : List String
  syncs : Nat
  panicked : Bool
deriving DecidableEq, Repr, Inhabited

/-- In-flight operation selected by first completion. -/
def pickHandle (l : List AssetInfo) (p : Nat) : AssetInfo :=
  l.getD (p % l.length) default

/-- Cache field written on a successful completion, selected by data type. -/
def linkWriter (dt : DataType) (link : String) : CacheItem → CacheItem :=
  match dt with
  | DataType.Media => fun it => { it with image_link := link }
  | DataType.Metadata => fun it => { it with metadata_link := link }

/-- Completion half of one scheduler iteration: the selected in-flight
operation leaves the window; on success the link field selected by the data
type is written to its cache entry (the lookup unwrap is modelled as the
panicked flag when the entry is missing), on failure an error is recorded. -/
def schedComplete (dt : DataType) (d : Decision) (s : SchedState) : SchedState :=
  let h := pickHandle s.handles d.pick
  let remaining := s.handles.eraseIdx (d.pick % s.handles.length)
  match d.outcome with
  | UpOutcome.okLink link =>
      match cacheGet s.cache h.asset_id with
      | some _ =>
          { s with handles := remaining,
                   cache := cacheModify s.cache h.asset_id (linkWriter dt link) }
      | none => { s with handles := remaining, panicked := true }
  | UpOutcome.failMsg m =>
      { s with handles := remaining,
               errors := s.errors ++ ["Upload error: " ++ m] }

/-- Replenishment half of one scheduler iteration: when more than half the
window is free and the queue is non-empty, a cache checkpoint is written and
up to PARALLEL_LIMIT / 2 queued tasks are dispatched (nothing happens after a
panic). -/
def schedReplenish (plim : Nat) (s1 : SchedState) : SchedState :=
  if s1.panicked then s1
  else if ¬ s1.tasks.isEmpty ∧ plim - s1.handles.length > plim / 2 then
    { s1 with
        syncs := s1.syncs + 1
        handles := s1.handles ++ s1.tasks.take (min s1.tasks.length (plim / 2))
        tasks := s1.tasks.drop (min s1.tasks.length (plim / 2)) }
  else s1

/-- One iteration of the scheduler loop of upload_data: completion of one
in-flight operation followed by conditional replenishment. -/
def schedStep (plim : Nat) (dt : DataType) (d : Decision) (s : SchedState) :
    SchedState :=
  if s.handles.isEmpty then s
  else schedReplenish plim (schedComplete dt d s)

/-- Scheduler loop: while the interruption flag is unset and in-flight
operations remain (and no unwrap has panicked), perform one iteration; fuel
bounds the number of iterations and is chosen large enough by the caller. -/
def runLoop (plim : Nat) (dt : DataType) (orc : Nat → Decision) :
    Nat → Nat → SchedState → SchedState
  | 0, _, s => s
  | fuel + 1, n, s =>
      if s.panicked then s
      else if (orc n).interrupt then s
      else if s.handles.isEmpty then s
      else runLoop plim dt orc fuel (n + 1) (schedStep plim dt (orc n) s)

/-- Result of one upload_data call. -/
inductive UpResult where
  | fatal (msg : String)
  | panicRes (msg : String)
  | okErrs (errs : List String)
deriving DecidableEq, Repr, Inhabited

/-- Observable outcome of upload_data: final cache, number of mid-loop
checkpoints, whether the post-loop checkpoint was written, the number of
tasks left undispatched, and the returned value. -/
structure UploadOut where
  cache : Cache
  syncs : Nat
  postSynced : Bool
  tasksLeft : Nat
  result : UpResult
deriving DecidableEq, Repr, Inhabited

/-- Post-loop epilogue of upload_data: with per-task errors the list is
returned non-fatally after a checkpoint; with no errors but undispatched
tasks remaining the fatal not-all-files error is returned at once, before
the post-loop checkpoint line is reached; otherwise the checkpoint is written
and the empty error list returned. -/
def uploadPost (s : SchedState) : UploadOut :=
  if ¬ s.errors.isEmpty then
    { cache := s.cache, syncs := s.syncs + 1, postSynced := true,
      tasksLeft := s.tasks.length, result := UpResult.okErrs s.errors }
  else if ¬ s.tasks.isEmpty then
    { cache := s.cache, syncs := s.syncs, postSynced := false,
      tasksLeft := s.tasks.length,
      result := UpResult.fatal "Not all files were uploaded." }
  else
    { cache := s.cache, syncs := s.syncs + 1, postSynced := true,
      tasksLeft := 0, result := UpResult.okErrs s.errors }

/-- The whole of upload_data: batch preparation, initial dispatch of
min(PARALLEL_LIMIT, queue length) operations, the scheduler loop, and the
epilogue.  plim stands for PARALLEL_LIMIT (a fixed global constant defined
outside the excerpt); orc supplies the externally determined events. -/
def uploadDataModel (plim : Nat) (assets : List (Nat × AssetPair))
    (cache : Cache) (indices : List Nat) (dt : DataType)
    (orc : Nat → Decision) : UploadOut :=
  match uploadBuild assets cache indices dt with
  | Except.error e =>
      { cache := cache, syncs := 0, postSynced := false,
        tasksLeft := 0, result := UpResult.fatal e }
  | Except.ok tasks =>
      let k := min tasks.length plim
      let s0 : SchedState :=
        { tasks := tasks.drop k, handles := tasks.take k, cache := cache,
          errors := [], syncs := 0, panicked := false }
      let sf := runLoop plim dt orc (2 * tasks.length + 1) 0 s0
      if sf.panicked then
        { cache := sf.cache, syncs := sf.syncs, postSynced := false,
          tasksLeft := sf.tasks.length,
          result := UpResult.panicRes "missing cache entry on upload completion" }
      else uploadPost sf

/-- Panic kinds of the post-stage removal loops: the cache lookup unwrap, or
the animation link unwrap. -/
inductive RemovalPanic where
  | missingItem (k : Nat)
  | missingLink (k : Nat)
deriving DecidableEq, Repr, Inhabited

/-- Removal loop after the image stage: every originally scheduled image index
whose cache entry still has an empty image link is removed from the metadata
schedule; the cache lookup unwrap is a possible panic. -/
def removeFailedImages (cache : Cache) :
    List Nat → List Nat → Except RemovalPanic (List Nat)
  | [], meta => Except.ok meta
  | i :: rest, meta =>
      match cacheGet cache i with
      | none => Except.error (RemovalPanic.missingItem i)
      | some item =>
          let meta' := if item.image_link = "" then meta.filter (fun x => x ≠ i)
                       else meta
          removeFailedImages cache rest meta'

/-- Removal loop after the animation stage: keyed on the animation link; both
the cache lookup unwrap and the animation link unwrap are possible panics. -/
def removeFailedAnimations (cache : Cache) :
    List Nat → List Nat → Except RemovalPanic (List Nat)
  | [], meta => Except.ok meta
  | i :: rest, meta =>
      match cacheGet cache i with
      | none => Except.error (RemovalPanic.missingItem i)
      | some item =>
          match item.animation_link with
          | none => Except.error (RemovalPanic.missingLink i)
          | some link =>
              let meta' := if link = "" then meta.filter (fun x => x ≠ i)
                           else meta
              removeFailedAnimations cache rest meta'

/-- Ordered insertion used to model IndexMap sort_keys (the source sorts the
decimal-string keys; any sort is a permutation of the entries, which is all
the claims use). -/
def keyInsert (kv : Nat × CacheItem) : Cache → Cache
  | [] => [kv]
  | kw :: rest => if kv.1 ≤ kw.1 then kv :: kw :: rest else kw :: keyInsert kv rest

/-- Cache with the keys sorted (cache.items.0.sort_keys()). -/
def sortCache : Cache → Cache
  | [] => []
  | kv :: rest => keyInsert kv (sortCache rest)

/-- Reconciliation predicate for one cache entry: non-empty image and metadata
links, and a non-empty animation link whenever the animation link slot is
present. -/
def completeItem (item : CacheItem) : Bool :=
  let has_animation :=
    match item.animation_link with
    | some l => l.isEmpty
    | none => false
  !(item.image_link.isEmpty || item.metadata_link.isEmpty || has_animation)

/-- Number of cache entries counted as fully uploaded by reconciliation. -/
def countComplete (c : Cache) : Nat := c.countP (fun kv => completeItem kv.2)

/-- Final result of one process_upload run. -/
inductive RunResult where
  | okRun
  | errRun (msg : String)
  | panicRun (msg : String)
deriving DecidableEq, Repr, Inhabited

/-- Observable outcome of a process_upload run: final cache, collected
non-fatal errors, number of checkpoints, the index list passed to each upload
stage that actually ran, and the returned value. -/
structure RunOut where
  cache : Cache
  errors : List String
  syncs : Nat
  stage1 : Option (List Nat)
  stage2 : Option (List Nat)
  stage3 : Option (List Nat)
  result : RunResult
deriving DecidableEq, Repr, Inhabited

/-- Reconciliation tail of process_upload: sort the cache keys, checkpoint,
count the complete entries and compare with the number of asset pairs; on a
mismatch the run fails with the aggregated errors, or with the generic
incorrect-pair-count message when no errors were collected. -/
def reconcile (pairsLen : Nat) (cache : Cache) (errors : List String)
    (syncs : Nat) (st1 st2 st3 : Option (List Nat)) : RunOut :=
  let cacheS := sortCache cache
  let count := countComplete cacheS
  if count ≠ pairsLen then
    let msg := if ¬ errors.isEmpty then "Failed to upload all files"
               else "Incorrect number of image/metadata pairs"
    { cache := cacheS, errors := errors, syncs := syncs + 1, stage1 := st1,
      stage2 := st2, stage3 := st3, result := RunResult.errRun msg }
  else
    { cache := cacheS, errors := errors, syncs := syncs + 1, stage1 := st1,
      stage2 := st2, stage3 := st3, result := RunResult.okRun }

/-- Metadata upload stage of the run controller followed by reconciliation. -/
def stage3part (plim : Nat) (pairs : List (Nat × AssetPair))
    (orc3 : Nat → Decision) (pairsLen : Nat) (cache : Cache)
    (errors : List String) (syncs : Nat) (st1 st2 : Option (List Nat))
    (metaIdx : List Nat) : RunOut :=
  if ¬ metaIdx.isEmpty then
    let u := uploadDataModel plim pairs cache metaIdx DataType.Metadata orc3
    match u.result with
    | UpResult.fatal e =>
        { cache := u.cache, errors := errors, syncs := syncs + u.syncs,
          stage1 := st1, stage2 := st2, stage3 := some metaIdx,
          result := RunResult.errRun e }
    | UpResult.panicRes m =>
        { cache := u.cache, errors := errors, syncs := syncs + u.syncs,
          stage1 := st1, stage2 := st2, stage3 := some metaIdx,
          result := RunResult.panicRun m }
    | UpResult.okErrs es =>
        reconcile pairsLen u.cache (errors ++ es) (syncs + u.syncs) st1 st2
          (some metaIdx)
  else reconcile pairsLen cache errors syncs st1 st2 none

/-- Animation upload stage of the run controller.  As in the source, the
index list handed to upload_data is indices.0, the image index list (the
comment in the source labels field 0 as image), with the Media data type;
the removal loop afterwards iterates over the animation index list. -/
def stage2part (plim : Nat) (pairs : List (Nat × AssetPair))
    (orc2 orc3 : Nat → Decision) (pairsLen : Nat) (cache : Cache)
    (errors : List String) (syncs : Nat) (st1 : Option (List Nat))
    (imgIdx animIdx metaIdx : List Nat) : RunOut :=
  if ¬ animIdx.isEmpty then
    let u := uploadDataModel plim pairs cache imgIdx DataType.Media orc2
    match u.result with
    | UpResult.fatal e =>
        { cache := u.cache, errors := errors, syncs := syncs + u.syncs,
          stage1 := st1, stage2 := some imgIdx, stage3 := none,
          result := RunResult.errRun e }
    | UpResult.panicRes m =>
        { cache := u.cache, errors := errors, syncs := syncs + u.syncs,
          stage1 := st1, stage2 := some imgIdx, stage3 := none,
          result := RunResult.panicRun m }
    | UpResult.okErrs es =>
        let errors' := errors ++ es
        let syncs' := syncs + u.syncs
        if ¬ metaIdx.isEmpty then
          match removeFailedAnimations u.cache animIdx metaIdx with
          | Except.error _ =>
              { cache := u.cache, errors := errors', syncs := syncs',
                stage1 := st1, stage2 := some imgIdx, stage3 := none,
                result := RunResult.panicRun "animation removal unwrap" }
          | Except.ok meta' =>
              stage3part plim pairs orc3 pairsLen u.cache errors' syncs' st1
                (some imgIdx) meta'
        else
          stage3part plim pairs orc3 pairsLen u.cache errors' syncs' st1
            (some imgIdx) metaIdx
  else stage3part plim pairs orc3 pairsLen cache errors syncs st1 none metaIdx

/-- Image upload stage of the run controller (the source invokes the upload
handler with the image index list and the image/media data-type tag, which
writes the image link), followed by the removal of image indices whose upload
left an empty image link from the metadata schedule. -/
def stage1part (plim : Nat) (pairs : List (Nat × AssetPair))
    (orc1 orc2 orc3 : Nat → Decision) (pairsLen : Nat) (cache : Cache)
    (imgIdx animIdx metaIdx : List Nat) : RunOut :=
  if ¬ imgIdx.isEmpty then
    let u := uploadDataModel plim pairs cache imgIdx DataType.Media orc1
    match u.result with
    | UpResult.fatal e =>
        { cache := u.cache, errors := [], syncs := u.syncs,
          stage1 := some imgIdx, stage2 := none, stage3 := none,
          result := RunResult.errRun e }
    | UpResult.panicRes m =>
        { cache := u.cache, errors := [], syncs := u.syncs,
          stage1 := some imgIdx, stage2 := none, stage3 := none,
          result := RunResult.panicRun m }
    | UpResult.okErrs es =>
        if ¬ metaIdx.isEmpty then
          match removeFailedImages u.cache imgIdx metaIdx with
          | Except.error _ =>
              { cache := u.cache, errors := es, syncs := u.syncs,
                stage1 := some imgIdx, stage2 := none, stage3 := none,
                result := RunResult.panicRun "image removal unwrap" }
          | Except.ok meta' =>
              stage2part plim pairs orc2 orc3 pairsLen u.cache es u.syncs
                (some imgIdx) imgIdx animIdx meta'
        else
          stage2part plim pairs orc2 orc3 pairsLen u.cache es u.syncs
            (some imgIdx) imgIdx animIdx metaIdx
  else stage2part plim pairs orc2 orc3 pairsLen cache [] 0 none imgIdx animIdx
    metaIdx

/-- Run controller of process_upload after asset and cache loading: change
detection, the more-images-than-metadata sanity guard, the three upload
stages when anything is scheduled, and final reconciliation.  The per-asset
metadata check is abstracted by metaOk, the storage backend events by the
three decision oracles. -/
def processUploadModel (plim : Nat) (metaOk : AssetPair → Bool)
    (pairs : List (Nat × AssetPair)) (cache0 : Cache)
    (orc1 orc2 orc3 : Nat → Decision) : RunOut :=
  let det := changeDetect metaOk pairs cache0 ⟨[], [], []⟩
  if det.aborted then
    { cache := det.cache, errors := [], syncs := 0, stage1 := none,
      stage2 := none, stage3 := none,
      result := RunResult.errRun "metadata check failed" }
  else if det.indices.image.length > det.indices.metadata.length then
    { cache := det.cache, errors := [], syncs := 0, stage1 := none,
      stage2 := none, stage3 := none,
      result := RunResult.errRun "There are more image files to upload than metadata" }
  else if ¬ det.indices.image.isEmpty ∨ ¬ det.indices.metadata.isEmpty ∨
      ¬ det.indices.animation.isEmpty then
    stage1part plim pairs orc1 orc2 orc3 pairs.length det.cache
      det.indices.image det.indices.animation det.indices.metadata
  else
    reconcile pairs.length det.cache [] 0 none none none

/-- Concrete asset pair without animation, used in closed evaluations. -/
def samplePair (i : Nat) : AssetPair :=
  { media := ⟨i, "png"⟩, metadata := ⟨i, "json"⟩,
    image_hash := "h" ++ toString i, metadata_hash := "m" ++ toString i,
    animation_hash := none }

/-- Fresh cache item of the concrete asset pair. -/
def sampleItem (i : Nat) : CacheItem := intoCacheItem (samplePair i)

/-- Concrete asset map of the first n sample pairs. -/
def sampleAssets (n : Nat) : List (Nat × AssetPair) :=
  (List.range n).map (fun i => (i, samplePair i))

/-- Concrete cache holding fresh items for the first n sample pairs. -/
def sampleCache (n : Nat) : Cache :=
  (List.range n).map (fun i => (i, sampleItem i))

/-- Decision oracle that interrupts at once. -/
def orcStop : Nat → Decision := fun _ => ⟨true, 0, UpOutcome.failMsg "x"⟩

/-- Decision oracle whose first completion fails, then interrupts. -/
def orcFailThenStop : Nat → Decision := fun n =>
  if n = 0 then ⟨false, 0, UpOutcome.failMsg "boom"⟩
  else ⟨true, 0, UpOutcome.failMsg "x"⟩

/-- All indices in all three schedules have cache entries. -/
def AllKeys (c : Cache) (idx : AssetType) : Prop :=
  ∀ j, j ∈ idx.image ++ idx.metadata ++ idx.animation →
    (cacheGet c j).isSome = true

/-- Invariant carried through the scheduler loop: no panic so far, and every
queued or in-flight task has a cache entry. -/
def SchedInv (s : SchedState) : Prop :=
  s.panicked = false ∧
  ∀ t, t ∈ s.handles ++ s.tasks → (cacheGet s.cache t.asset_id).isSome = true

/-- Asset pair with an animation fingerprint. -/
def animPair : AssetPair :=
  { media := ⟨1, "png"⟩, metadata := ⟨1, "json"⟩, image_hash := "h1",
    metadata_hash := "m1", animation_hash := some "a1" }

/-- Prior cache entry of asset 0 whose image hash differs from the current
fingerprint. -/
def oldItem0 : CacheItem :=
  { image_hash := "old", image_link := "L", metadata_hash := "m0",
    metadata_link := "M", animation_hash := none, animation_link := none,
    on_chain := true }

/-- Decision oracle on which every upload succeeds with link L. -/
def orcOk : Nat → Decision := fun _ => ⟨false, 0, UpOutcome.okLink "L"⟩

/-- Concrete full run with one image-only change (asset 0) and one new
animation asset (asset 1), every upload succeeding. -/
def claim6run : RunOut :=
  processUploadModel 4 (fun _ => true) [(0, samplePair 0), (1, animPair)]
    [(0, oldItem0)] orcOk orcOk orcOk

/-- Cache entry of asset 0 that matches the current fingerprints of
samplePair 0 and has non-empty links. -/
def goodItem0 : CacheItem :=
  { image_hash := "h0", image_link := "L", metadata_hash := "m0",
    metadata_link := "M", animation_hash := none, animation_link := none,
    on_chain := true }

/-- Stale cache entry under a key that no current asset pair has, with empty
links so reconciliation does not count it. -/
def staleItem : CacheItem :=
  { image_hash := "x", image_link := "", metadata_hash := "y",
    metadata_link := "", animation_hash := none, animation_link := none,
    on_chain := false }

/-- Concrete full run over one unchanged asset with a stale extra cache
entry. -/
def claim9run : RunOut :=
  processUploadModel 1 (fun _ => true) [(0, samplePair 0)]
    [(0, goodItem0), (5, staleItem)] orcOk orcOk orcOk

/-- Fields of a cache item that the upload scheduler never writes: everything
except the image and metadata links. -/
def SkelOk (a b : CacheItem) : Prop :=
  b.image_hash = a.image_hash ∧ b.metadata_hash = a.metadata_hash ∧
  b.animation_hash = a.animation_hash ∧ b.animation_link = a.animation_link

/-- The second cache has the same key set and entries that differ from the
first only in link fields the scheduler writes. -/
def SkelRel (c c' : Cache) : Prop :=
  ∀ k, (cacheGet c k = none ∧ cacheGet c' k = none) ∨
    (∃ a b, cacheGet c k = some a ∧ cacheGet c' k = some b ∧ SkelOk a b)

/-- Hash agreement between a cache entry and its asset pair after change
detection, including the animation-hash coherence rule 3 reads. -/
def HashOK (c : Cache) (i : Nat) (p : AssetPair) : Prop :=
  ∃ it, cacheGet c i = some it ∧ it.image_hash = p.image_hash ∧
    it.metadata_hash = p.metadata_hash ∧
    (it.animation_hash.isSome = true → it.animation_link.isSome = true →
      it.animation_hash = p.animation_hash)

/-- A cache entry that triggers none of the four change-detection rules for
its pair: matching hashes, non-empty links, coherent animation fields. -/
def GoodItem (c : Cache) (i : Nat) (p : AssetPair) : Prop :=
  ∃ it, cacheGet c i = some it ∧
    it.image_hash = p.image_hash ∧ it.image_link ≠ "" ∧
    it.metadata_hash = p.metadata_hash ∧ it.metadata_link ≠ "" ∧
    (it.animation_hash.isSome = true → it.animation_link.isSome = true →
      it.animation_hash = p.animation_hash) ∧
    it.animation_link ≠ some ""

theorem schedComplete_tasks (dt : DataType) (d : Decision) (s : SchedState) :
    (schedComplete dt d s).tasks = s.tasks := by
  simp only [schedComplete]
  cases d.outcome with
  | okLink link =>
      cases cacheGet s.cache (pickHandle s.handles d.pick).asset_id <;> rfl
  | failMsg m => rfl

theorem schedComplete_syncs (dt : DataType) (d : Decision) (s : SchedState) :
    (schedComplete dt d s).syncs = s.syncs := by
  simp only [schedComplete]
  cases d.outcome with
  | okLink link =>
      cases cacheGet s.cache (pickHandle s.handles d.pick).asset_id <;> rfl
  | failMsg m => rfl

theorem schedComplete_handles (dt : DataType) (d : Decision) (s : SchedState) :
    (schedComplete dt d s).handles =
      s.handles.eraseIdx (d.pick % s.handles.length) := by
  simp only [schedComplete]
  cases d.outcome with
  | okLink link =>
      cases cacheGet s.cache (pickHandle s.handles d.pick).asset_id <;> rfl
  | failMsg m => rfl

section CacheLemmas

theorem cacheGet_insert_self (c : Cache) (k : Nat) (v : CacheItem) :
    cacheGet (cacheInsert c k v) k = some v := by
  induction c with
  | nil => simp [cacheInsert, cacheGet]
  | cons kv rest ih =>
      cases kv with
      | mk a b =>
          by_cases h : a = k
          · simp [cacheInsert, h, cacheGet]
          · simp [cacheInsert, h, cacheGet, ih]

theorem cacheGet_insert_other (c : Cache) (k q : Nat) (v : CacheItem)
    (h : q ≠ k) : cacheGet (cacheInsert c k v) q = cacheGet c q := by
  have hne : ¬ k = q := fun hh => h hh.symm
  induction c with
  | nil => simp [cacheInsert, cacheGet, hne]
  | cons kv rest ih =>
      cases kv with
      | mk a b =>
          by_cases hk : a = k
          · subst hk
            simp [cacheInsert, cacheGet, hne]
          · simp only [cacheInsert, if_neg hk, cacheGet]
            by_cases hq : a = q <;> simp [hq, ih]

theorem cacheGet_modify_self (c : Cache) (k : Nat) (f : CacheItem → CacheItem) :
    cacheGet (cacheModify c k f) k = (cacheGet c k).map f := by
  induction c with
  | nil => simp [cacheModify, cacheGet]
  | cons kv rest ih =>
      cases kv with
      | mk a b =>
          by_cases h : a = k
          · simp [cacheModify, h, cacheGet]
          · simp [cacheModify, h, cacheGet, ih]

theorem cacheGet_modify_other (c : Cache) (k q : Nat) (f : CacheItem → CacheItem)
    (h : q ≠ k) : cacheGet (cacheModify c k f) q = cacheGet c q := by
  have hne : ¬ k = q := fun hh => h hh.symm
  induction c with
  | nil => simp [cacheModify, cacheGet]
  | cons kv rest ih =>
      cases kv with
      | mk a b =>
          by_cases hk : a = k
          · subst hk
            simp [cacheModify, cacheGet, hne]
          · simp only [cacheModify, if_neg hk, cacheGet]
            by_cases hq : a = q <;> simp [hq, ih]

end CacheLemmas

/-- C1: when a prior cache item exists and the image fingerprint differs from
the cached one, or the cached image link is empty, the item is replaced
wholesale by a fresh one built from the current pair, the index is scheduled
for image and metadata upload, and for animation upload exactly when the
previous item had an animation hash or an animation link.  The hypotheses say
nothing about the metadata fingerprint: the conclusion holds whether or not
it changed, which is the priority of rule 2 over rule 4. -/
theorem claim1_image_replacement
    (index : Nat) (pair : AssetPair) (cache : Cache) (indices : AssetType)
    (item : CacheItem)
    (hget : cacheGet cache index = some item)
    (hcond : item.image_hash ≠ pair.image_hash ∨ item.image_link = "") :
    cacheGet (detectStep index pair cache indices).1 index =
        some (intoCacheItem pair) ∧
    (detectStep index pair cache indices).2.image = indices.image ++ [index] ∧
    (detectStep index pair cache indices).2.metadata =
        indices.metadata ++ [index] ∧
    ((item.animation_hash.isSome ∨ item.animation_link.isSome) →
      (detectStep index pair cache indices).2.animation =
        indices.animation ++ [index]) ∧
    ((item.animation_hash = none ∧ item.animation_link = none) →
      (detectStep index pair cache indices).2.animation = indices.animation) := by
  by_cases ha : (item.animation_hash.isSome || item.animation_link.isSome) = true
  · have hstep : detectStep index pair cache indices =
        (cacheInsert cache index (intoCacheItem pair),
         { indices with
             image := indices.image ++ [index]
             metadata := indices.metadata ++ [index]
             animation := indices.animation ++ [index] }) := by
      unfold detectStep
      rw [hget]
      simp only [if_pos hcond, ha, if_true]
    rw [hstep]
    refine ⟨cacheGet_insert_self _ _ _, rfl, rfl, fun _ => rfl, ?_⟩
    rintro ⟨h1, h2⟩
    rw [h1, h2] at ha
    simp at ha
  · have hstep : detectStep index pair cache indices =
        (cacheInsert cache index (intoCacheItem pair),
         { indices with
             image := indices.image ++ [index]
             metadata := indices.metadata ++ [index] }) := by
      unfold detectStep
      rw [hget]
      simp only [if_pos hcond, ha]
      simp
    rw [hstep]
    rw [Bool.or_eq_true] at ha
    push_neg at ha
    refine ⟨cacheGet_insert_self _ _ _, rfl, rfl, ?_, fun _ => rfl⟩
    intro hsome
    rcases hsome with hs | hs
    · exact absurd hs (by simpa using ha.1)
    · exact absurd hs (by simpa using ha.2)

/-- Witness for claim1_image_replacement at a concrete input. -/
theorem claim1_image_replacement_witness :
    let pair : AssetPair :=
      { media := ⟨0, "png"⟩, metadata := ⟨0, "json"⟩, image_hash := "new",
        metadata_hash := "m", animation_hash := none }
    let item : CacheItem :=
      { image_hash := "old", image_link := "L", metadata_hash := "m",
        metadata_link := "M", animation_hash := some "a",
        animation_link := some "A", on_chain := true }
    let cache : Cache := [(0, item)]
    cacheGet (detectStep 0 pair cache ⟨[], [], []⟩).1 0 =
        some (intoCacheItem pair) ∧
    (detectStep 0 pair cache ⟨[], [], []⟩).2.image = [0] ∧
    (detectStep 0 pair cache ⟨[], [], []⟩).2.metadata = [0] ∧
    (detectStep 0 pair cache ⟨[], [], []⟩).2.animation = [0] := by
  intro pair item cache
  have h := claim1_image_replacement 0 pair cache ⟨[], [], []⟩ item
    (by decide) (by decide)
  exact ⟨h.1, by simpa using h.2.1, by simpa using h.2.2.1,
    by simpa using h.2.2.2.1 (Or.inl (by decide))⟩

/-- Length bookkeeping of one change-detection step: the image schedule grows
by at most one, and only together with the metadata schedule. -/
theorem detectStep_sched_lengths (i : Nat) (p : AssetPair) (c : Cache)
    (idx : AssetType) :
    ((detectStep i p c idx).2.image.length = idx.image.length ∧
     (detectStep i p c idx).2.metadata.length = idx.metadata.length) ∨
    ((detectStep i p c idx).2.image.length = idx.image.length ∧
     (detectStep i p c idx).2.metadata.length = idx.metadata.length + 1) ∨
    ((detectStep i p c idx).2.image.length = idx.image.length + 1 ∧
     (detectStep i p c idx).2.metadata.length = idx.metadata.length + 1) := by
  unfold detectStep
  cases hg : cacheGet c i with
  | none =>
      simp only []
      split_ifs <;> simp
  | some item =>
      simp only []
      split_ifs <;> simp

/-- Invariant of the change-detection loop: the image schedule never gets
longer than the metadata schedule. -/
theorem changeDetect_image_le_metadata (metaOk : AssetPair → Bool)
    (pairs : List (Nat × AssetPair)) :
    ∀ (cache : Cache) (idx : AssetType),
      idx.image.length ≤ idx.metadata.length →
      (changeDetect metaOk pairs cache idx).indices.image.length ≤
        (changeDetect metaOk pairs cache idx).indices.metadata.length := by
  induction pairs with
  | nil => intro cache idx h; simpa [changeDetect] using h
  | cons ip rest ih =>
      intro cache idx h
      cases ip with
      | mk i p =>
          have hstep := detectStep_sched_lengths i p cache idx
          have hle : (detectStep i p cache idx).2.image.length ≤
              (detectStep i p cache idx).2.metadata.length := by
            rcases hstep with ⟨h1, h2⟩ | ⟨h1, h2⟩ | ⟨h1, h2⟩ <;> omega
          by_cases hm : metaOk p
          · simpa [changeDetect, hm] using ih _ _ hle
          · simpa [changeDetect, hm] using hle

/-- C2: for every asset list and prior cache, change detection never schedules
more image indices than metadata indices (every branch that pushes an image
index pushes the metadata index too), so the fatal
more-images-than-metadata consistency check never fires. -/
theorem claim2_never_more_images (metaOk : AssetPair → Bool)
    (pairs : List (Nat × AssetPair)) (cache0 : Cache) :
    (changeDetect metaOk pairs cache0 ⟨[], [], []⟩).indices.image.length ≤
      (changeDetect metaOk pairs cache0 ⟨[], [], []⟩).indices.metadata.length ∧
    imageGuardErr (changeDetect metaOk pairs cache0 ⟨[], [], []⟩).indices =
      none := by
  have h := changeDetect_image_le_metadata metaOk pairs cache0 ⟨[], [], []⟩
    (by simp)
  refine ⟨h, ?_⟩
  unfold imageGuardErr
  rw [if_neg]
  omega

theorem handles_pos_of_not_isEmpty {l : List AssetInfo}
    (h : ¬ l.isEmpty) : 0 < l.length := by
  cases l with
  | nil => simp at h
  | cons a t => simp

/-- Shape of one scheduler iteration on a non-empty window: either no
replenishment happened and exactly the completed slot was freed, or a
checkpoint was written, more than half the window was free, and at most
PARALLEL_LIMIT / 2 tasks were added. -/
theorem schedStep_len (plim : Nat) (dt : DataType) (d : Decision)
    (s : SchedState) (hne : ¬ s.handles.isEmpty) :
    ((schedStep plim dt d s).handles.length = s.handles.length - 1 ∧
     (schedStep plim dt d s).syncs = s.syncs) ∨
    ((schedStep plim dt d s).handles.length ≤ s.handles.length - 1 + plim / 2 ∧
     (schedStep plim dt d s).syncs = s.syncs + 1 ∧
     plim - (s.handles.length - 1) > plim / 2) := by
  have hpos : 0 < s.handles.length := handles_pos_of_not_isEmpty hne
  have hmod : d.pick % s.handles.length < s.handles.length := Nat.mod_lt _ hpos
  have herase : (schedComplete dt d s).handles.length = s.handles.length - 1 := by
    rw [schedComplete_handles, List.length_eraseIdx, if_pos hmod]
  have hsy := schedComplete_syncs dt d s
  unfold schedStep
  rw [if_neg hne]
  unfold schedReplenish
  split_ifs with hp hrep
  · exact Or.inl ⟨herase, hsy⟩
  · refine Or.inr ⟨?_, by simp [hsy], ?_⟩
    · simp only [List.length_append, List.length_take, herase]
      omega
    · have := hrep.2
      omega
  · exact Or.inl ⟨herase, hsy⟩

/-- C3: bounded concurrency of the upload scheduler: the initial dispatch
takes min(PARALLEL_LIMIT, queue length) tasks, never more than
PARALLEL_LIMIT; one loop iteration keeps the in-flight window within
PARALLEL_LIMIT; and an iteration that dispatched anything beyond the single
freed slot added at most PARALLEL_LIMIT / 2 tasks, wrote exactly one cache
checkpoint, and saw more than PARALLEL_LIMIT / 2 free slots. -/
theorem claim3_bounded_concurrency (plim : Nat) (dt : DataType)
    (d : Decision) (s : SchedState) (tasks : List AssetInfo) :
    ((tasks.take (min tasks.length plim)).length = min tasks.length plim ∧
      min tasks.length plim ≤ plim) ∧
    (s.handles.length ≤ plim → (schedStep plim dt d s).handles.length ≤ plim) ∧
    (¬ s.handles.isEmpty →
      (schedStep plim dt d s).handles.length ≤ s.handles.length - 1 + plim / 2 ∨
        (schedStep plim dt d s).handles.length = s.handles.length - 1) ∧
    (¬ s.handles.isEmpty → s.handles.length - 1 <
        (schedStep plim dt d s).handles.length →
      (schedStep plim dt d s).syncs = s.syncs + 1 ∧
      plim - (s.handles.length - 1) > plim / 2) := by
  refine ⟨⟨?_, ?_⟩, ?_, ?_, ?_⟩
  · simp [List.length_take]
  · omega
  · intro hb
    by_cases hne : s.handles.isEmpty
    · have : schedStep plim dt d s = s := by
        unfold schedStep
        rw [if_pos hne]
      rw [this]
      exact hb
    · rcases schedStep_len plim dt d s hne with ⟨h1, _⟩ | ⟨h1, _, h3⟩ <;> omega
  · intro hne
    rcases schedStep_len plim dt d s hne with ⟨h1, _⟩ | ⟨h1, _, _⟩
    · exact Or.inr h1
    · exact Or.inl h1
  · intro hne hgrow
    rcases schedStep_len plim dt d s hne with ⟨h1, _⟩ | ⟨_, h2, h3⟩
    · omega
    · exact ⟨h2, h3⟩

/-- Witness for claim3_bounded_concurrency at a concrete scheduler state. -/
theorem claim3_bounded_concurrency_witness :
    let t : AssetInfo :=
      { asset_id := 0, file_path := "0.png", media_link := "",
        data_type := DataType.Media, content_type := "image/png" }
    let s : SchedState :=
      { tasks := [t], handles := [t, t], cache := [], errors := [],
        syncs := 0, panicked := false }
    (schedStep 2 DataType.Media ⟨false, 0, UpOutcome.failMsg "x"⟩ s).handles.length ≤ 2 ∧
    ¬ [t, t].isEmpty := by
  intro t s
  have h := claim3_bounded_concurrency 2 DataType.Media
    ⟨false, 0, UpOutcome.failMsg "x"⟩ s [t]
  exact ⟨h.2.1 (by decide), by decide⟩

/-- C4 counterexample: a run of upload_data cancelled at once with one task
still undispatched and no per-task errors returns the fatal error without
writing the post-loop checkpoint, so the claim that every exit path
checkpoints after the loop is false on this input. -/
theorem claim4_counterexample :
    (uploadDataModel 1 (sampleAssets 2) (sampleCache 2) [0, 1] DataType.Media
        orcStop).postSynced = false ∧
    (uploadDataModel 1 (sampleAssets 2) (sampleCache 2) [0, 1] DataType.Media
        orcStop).tasksLeft = 1 ∧
    (uploadDataModel 1 (sampleAssets 2) (sampleCache 2) [0, 1] DataType.Media
        orcStop).result = UpResult.fatal "Not all files were uploaded." ∧
    (uploadDataModel 1 (sampleAssets 2) (sampleCache 2) [0, 1] DataType.Media
        orcStop).syncs = 0 := by
  decide

/-- C4 amended: the post-loop epilogue of upload_data writes the checkpoint
exactly when per-task errors were collected or no undispatched task remains;
on the one path that skips it, the fatal not-all-files error is returned. -/
theorem claim4_amended_post_checkpoint (s : SchedState) :
    (uploadPost s).postSynced = (!s.errors.isEmpty || s.tasks.isEmpty) ∧
    ((uploadPost s).postSynced = false →
      (uploadPost s).result = UpResult.fatal "Not all files were uploaded.") := by
  cases he : s.errors with
  | nil =>
      cases ht : s.tasks with
      | nil => simp [uploadPost, he, ht]
      | cons a t => simp [uploadPost, he, ht]
  | cons e es => simp [uploadPost, he]

/-- Witness for claim4_amended_post_checkpoint at a concrete state. -/
theorem claim4_amended_post_checkpoint_witness :
    let s : SchedState :=
      { tasks := [default], handles := [], cache := [], errors := [],
        syncs := 0, panicked := false }
    (uploadPost s).postSynced = (!s.errors.isEmpty || s.tasks.isEmpty) ∧
    (uploadPost s).result = UpResult.fatal "Not all files were uploaded." := by
  intro s
  exact ⟨(claim4_amended_post_checkpoint s).1,
    (claim4_amended_post_checkpoint s).2 (by decide)⟩

/-- C5 counterexample: a run of upload_data cancelled with one task still
undispatched but with one per-task error already collected returns the error
list non-fatally; the fatal not-all-files error is not produced, so the claim
that cancellation with undispatched tasks always yields the fatal error in
addition to collected errors is false on this input. -/
theorem claim5_counterexample :
    (uploadDataModel 2 (sampleAssets 3) (sampleCache 3) [0, 1, 2]
        DataType.Metadata orcFailThenStop).tasksLeft = 1 ∧
    (uploadDataModel 2 (sampleAssets 3) (sampleCache 3) [0, 1, 2]
        DataType.Metadata orcFailThenStop).result =
      UpResult.okErrs ["Upload error: boom"] := by
  decide

/-- C5 amended: upload_data returns the fatal not-all-files error exactly when
cancellation left undispatched tasks and no per-task error was collected;
otherwise the collected per-task errors are returned as the non-fatal list
(even when undispatched tasks remain). -/
theorem claim5_amended_fatal_only_without_errors (s : SchedState) :
    (uploadPost s).result =
      (if s.errors = [] ∧ s.tasks ≠ [] then
        UpResult.fatal "Not all files were uploaded."
       else UpResult.okErrs s.errors) := by
  cases he : s.errors with
  | nil =>
      cases ht : s.tasks with
      | nil => simp [uploadPost, he, ht]
      | cons a t => simp [uploadPost, he, ht]
  | cons e es => simp [uploadPost, he]

section KeyLemmas

theorem cacheGet_insert_isSome (c : Cache) (k q : Nat) (v : CacheItem) :
    (cacheGet (cacheInsert c k v) q).isSome = true ↔
      ((cacheGet c q).isSome = true ∨ q = k) := by
  by_cases h : q = k
  · subst h
    simp [cacheGet_insert_self]
  · rw [cacheGet_insert_other c k q v h]
    simp [h]

theorem cacheGet_modify_isSome (c : Cache) (k q : Nat)
    (f : CacheItem → CacheItem) :
    (cacheGet (cacheModify c k f) q).isSome = (cacheGet c q).isSome := by
  by_cases h : q = k
  · subst h
    rw [cacheGet_modify_self]
    cases cacheGet c q <;> rfl
  · rw [cacheGet_modify_other c k q f h]

/-- Every change-detection step preserves existing cache keys. -/
theorem detectStep_key_mono (i : Nat) (p : AssetPair) (c : Cache)
    (idx : AssetType) (q : Nat) (h : (cacheGet c q).isSome = true) :
    (cacheGet (detectStep i p c idx).1 q).isSome = true := by
  unfold detectStep
  cases hg : cacheGet c i with
  | none =>
      simp only []
      split_ifs <;> simp [cacheGet_insert_isSome, h]
  | some item =>
      simp only []
      split_ifs <;>
        simp [cacheGet_insert_isSome, cacheGet_modify_isSome, h]

/-- After a change-detection step the processed index always has a cache
entry. -/
theorem detectStep_key_self (i : Nat) (p : AssetPair) (c : Cache)
    (idx : AssetType) :
    (cacheGet (detectStep i p c idx).1 i).isSome = true := by
  unfold detectStep
  cases hg : cacheGet c i with
  | none =>
      simp only []
      split_ifs <;> simp [cacheGet_insert_isSome]
  | some item =>
      simp only []
      split_ifs <;>
        simp [cacheGet_insert_isSome, cacheGet_modify_isSome, hg]

/-- Each schedule list of a change-detection step is either unchanged or
extended by the processed index. -/
theorem detectStep_sched_shape (i : Nat) (p : AssetPair) (c : Cache)
    (idx : AssetType) :
    ((detectStep i p c idx).2.image = idx.image ∨
      (detectStep i p c idx).2.image = idx.image ++ [i]) ∧
    ((detectStep i p c idx).2.metadata = idx.metadata ∨
      (detectStep i p c idx).2.metadata = idx.metadata ++ [i]) ∧
    ((detectStep i p c idx).2.animation = idx.animation ∨
      (detectStep i p c idx).2.animation = idx.animation ++ [i]) := by
  unfold detectStep
  cases hg : cacheGet c i with
  | none =>
      simp only []
      split_ifs <;> simp
  | some item =>
      simp only []
      split_ifs <;> simp

theorem detectStep_allKeys (i : Nat) (p : AssetPair) (c : Cache)
    (idx : AssetType) (h : AllKeys c idx) :
    AllKeys (detectStep i p c idx).1 (detectStep i p c idx).2 := by
  intro j hj
  obtain ⟨him, hmd, han⟩ := detectStep_sched_shape i p c idx
  have hmem : j ∈ idx.image ++ idx.metadata ++ idx.animation ∨ j = i := by
    simp only [List.mem_append] at hj ⊢
    rcases hj with (hj | hj) | hj
    · rcases him with he | he <;> rw [he] at hj
      · exact Or.inl (Or.inl (Or.inl hj))
      · rcases List.mem_append.mp hj with hh | hh
        · exact Or.inl (Or.inl (Or.inl hh))
        · simp at hh
          exact Or.inr hh
    · rcases hmd with he | he <;> rw [he] at hj
      · exact Or.inl (Or.inl (Or.inr hj))
      · rcases List.mem_append.mp hj with hh | hh
        · exact Or.inl (Or.inl (Or.inr hh))
        · simp at hh
          exact Or.inr hh
    · rcases han with he | he <;> rw [he] at hj
      · exact Or.inl (Or.inr hj)
      · rcases List.mem_append.mp hj with hh | hh
        · exact Or.inl (Or.inr hh)
        · simp at hh
          exact Or.inr hh
  rcases hmem with hm | hm
  · exact detectStep_key_mono i p c idx j (h j hm)
  · subst hm
    exact detectStep_key_self _ _ _ _

theorem changeDetect_allKeys (metaOk : AssetPair → Bool)
    (pairs : List (Nat × AssetPair)) :
    ∀ (c : Cache) (idx : AssetType), AllKeys c idx →
      AllKeys (changeDetect metaOk pairs c idx).cache
        (changeDetect metaOk pairs c idx).indices := by
  induction pairs with
  | nil => intro c idx h; simpa [changeDetect] using h
  | cons ip rest ih =>
      intro c idx h
      cases ip with
      | mk i p =>
          have hstep := detectStep_allKeys i p c idx h
          by_cases hm : metaOk p
          · simpa [changeDetect, hm] using ih _ _ hstep
          · simpa [changeDetect, hm] using hstep

end KeyLemmas

section NoPanicLemmas

theorem collectPaths_error_of_missing (assets : List (Nat × AssetPair))
    (dt : DataType) :
    ∀ (idxs : List Nat) (exts : List String) (paths : List FPathM),
      (∃ i ∈ idxs, assetsGet assets i = none) →
      ∃ e, collectPaths assets dt idxs exts paths = Except.error e := by
  intro idxs
  induction idxs with
  | nil =>
      intro exts paths h
      rcases h with ⟨i, hi, _⟩
      simp at hi
  | cons j rest ih =>
      intro exts paths h
      cases hg : assetsGet assets j with
      | none =>
          exact ⟨"Failed to get asset at index " ++ toString j,
            by simp [collectPaths, hg]⟩
      | some item =>
          rcases h with ⟨i, hi, hmiss⟩
          rcases List.mem_cons.mp hi with hij | hir
          · subst hij
            rw [hg] at hmiss
            cases hmiss
          · rcases ih (if (pathFor dt item).ext ∈ exts then exts
                else exts ++ [(pathFor dt item).ext]) (paths ++ [pathFor dt item])
                ⟨i, hir, hmiss⟩ with ⟨e, he⟩
            exact ⟨e, by simp only [collectPaths, hg]; exact he⟩

theorem uploadBuild_error_of_missing (assets : List (Nat × AssetPair))
    (cache : Cache) (idxs : List Nat) (dt : DataType)
    (h : ∃ i ∈ idxs, assetsGet assets i = none) :
    ∃ e, uploadBuild assets cache idxs dt = Except.error e := by
  rcases collectPaths_error_of_missing assets dt idxs [] [] h with ⟨e, he⟩
  exact ⟨e, by simp [uploadBuild, he]⟩

theorem buildTasks_error_of_missing (cache : Cache) (dt : DataType)
    (ct : String) :
    ∀ (fps : List FPathM), (∃ fp ∈ fps, cacheGet cache fp.stem = none) →
      ∃ e, buildTasks cache dt ct fps = Except.error e := by
  intro fps
  induction fps with
  | nil =>
      intro h
      rcases h with ⟨fp, hfp, _⟩
      simp at hfp
  | cons g rest ih =>
      intro h
      cases hg : cacheGet cache g.stem with
      | none =>
          exact ⟨"Failed to get config item at index " ++ toString g.stem,
            by simp [buildTasks, hg]⟩
      | some item =>
          rcases h with ⟨fp, hfp, hmiss⟩
          rcases List.mem_cons.mp hfp with hh | hh
          · subst hh
            rw [hg] at hmiss
            cases hmiss
          · rcases ih ⟨fp, hh, hmiss⟩ with ⟨e, he⟩
            exact ⟨e, by simp [buildTasks, hg, he]⟩

/-- Every task produced by a successful batch build has a cache entry for its
asset id: the build looked each one up. -/
theorem buildTasks_ok_keys (cache : Cache) (dt : DataType) (ct : String) :
    ∀ (fps : List FPathM) (ts : List AssetInfo),
      buildTasks cache dt ct fps = Except.ok ts →
      ∀ t ∈ ts, (cacheGet cache t.asset_id).isSome = true := by
  intro fps
  induction fps with
  | nil =>
      intro ts hok t ht
      simp [buildTasks] at hok
      subst hok
      simp at ht
  | cons g rest ih =>
      intro ts hok t ht
      cases hg : cacheGet cache g.stem with
      | none => simp [buildTasks, hg] at hok
      | some item =>
          cases hrest : buildTasks cache dt ct rest with
          | error e => simp [buildTasks, hg, hrest] at hok
          | ok ts' =>
              simp [buildTasks, hg, hrest] at hok
              subst hok
              rcases List.mem_cons.mp ht with hh | hh
              · subst hh
                simp [hg]
              · exact ih ts' hrest t hh

theorem uploadBuild_ok_keys (assets : List (Nat × AssetPair)) (cache : Cache)
    (idxs : List Nat) (dt : DataType) (ts : List AssetInfo)
    (hok : uploadBuild assets cache idxs dt = Except.ok ts) :
    ∀ t ∈ ts, (cacheGet cache t.asset_id).isSome = true := by
  unfold uploadBuild at hok
  cases hc : collectPaths assets dt idxs [] [] with
  | error e => rw [hc] at hok; cases hok
  | ok ep =>
      obtain ⟨exts, paths⟩ := ep
      rw [hc] at hok
      dsimp only [] at hok
      by_cases hl : exts.length = 1
      · rw [if_pos hl] at hok
        exact buildTasks_ok_keys cache dt _ paths ts hok
      · rw [if_neg hl] at hok
        cases hok

theorem pickHandle_mem (l : List AssetInfo) (p : Nat)
    (h : ¬ l.isEmpty) : pickHandle l p ∈ l := by
  have hpos : 0 < l.length := handles_pos_of_not_isEmpty h
  have hmod : p % l.length < l.length := Nat.mod_lt _ hpos
  unfold pickHandle
  rw [List.getD_eq_getElem l default hmod]
  exact List.getElem_mem hmod

theorem schedComplete_inv (dt : DataType) (d : Decision) (s : SchedState)
    (hne : ¬ s.handles.isEmpty) (h : SchedInv s) :
    SchedInv (schedComplete dt d s) := by
  obtain ⟨hp, hkeys⟩ := h
  have hsub : ∀ t : AssetInfo,
      t ∈ s.handles.eraseIdx (d.pick % s.handles.length) ++ s.tasks →
      t ∈ s.handles ++ s.tasks := by
    intro t ht
    rcases List.mem_append.mp ht with hh | hh
    · exact List.mem_append.mpr (Or.inl ((List.eraseIdx_sublist _ _).subset hh))
    · exact List.mem_append.mpr (Or.inr hh)
  have hpick := pickHandle_mem s.handles d.pick hne
  have hpkey : (cacheGet s.cache (pickHandle s.handles d.pick).asset_id).isSome
      = true :=
    hkeys _ (List.mem_append.mpr (Or.inl hpick))
  simp only [schedComplete]
  cases d.outcome with
  | okLink link =>
      cases hc : cacheGet s.cache (pickHandle s.handles d.pick).asset_id with
      | none => rw [hc] at hpkey; cases hpkey
      | some it =>
          refine ⟨hp, ?_⟩
          intro t ht
          rw [cacheGet_modify_isSome]
          exact hkeys t (hsub t ht)
  | failMsg m =>
      refine ⟨hp, ?_⟩
      intro t ht
      exact hkeys t (hsub t ht)

theorem schedReplenish_inv (plim : Nat) (s1 : SchedState) (h : SchedInv s1) :
    SchedInv (schedReplenish plim s1) := by
  obtain ⟨hp, hkeys⟩ := h
  unfold schedReplenish
  rw [hp]
  simp only [Bool.false_eq_true, if_false]
  split_ifs with hrep
  · refine ⟨rfl, ?_⟩
    intro t ht
    simp only [List.mem_append] at ht
    rcases ht with (hh | hh) | hh
    · exact hkeys t (List.mem_append.mpr (Or.inl hh))
    · exact hkeys t (List.mem_append.mpr
        (Or.inr ((List.take_sublist _ _).subset hh)))
    · exact hkeys t (List.mem_append.mpr
        (Or.inr ((List.drop_sublist _ _).subset hh)))
  · exact ⟨hp, hkeys⟩

theorem schedStep_inv (plim : Nat) (dt : DataType) (d : Decision)
    (s : SchedState) (h : SchedInv s) : SchedInv (schedStep plim dt d s) := by
  unfold schedStep
  split_ifs with hne
  · exact h
  · exact schedReplenish_inv plim _ (schedComplete_inv dt d s hne h)

theorem runLoop_inv (plim : Nat) (dt : DataType) (orc : Nat → Decision) :
    ∀ (fuel n : Nat) (s : SchedState), SchedInv s →
      SchedInv (runLoop plim dt orc fuel n s) := by
  intro fuel
  induction fuel with
  | zero => intro n s h; exact h
  | succ m ih =>
      intro n s h
      unfold runLoop
      split_ifs with h1 h2 h3
      · exact h
      · exact h
      · exact h
      · exact ih (n + 1) _ (schedStep_inv plim dt (orc n) s h)

/-- upload_data never reaches the modelled panic: the batch build already
checked every cache entry, and cache keys are never removed during the
loop, so the completion-time lookup always succeeds. -/
theorem uploadDataModel_no_panic (plim : Nat)
    (assets : List (Nat × AssetPair)) (cache : Cache) (idxs : List Nat)
    (dt : DataType) (orc : Nat → Decision) (m : String) :
    (uploadDataModel plim assets cache idxs dt orc).result ≠
      UpResult.panicRes m := by
  unfold uploadDataModel
  cases hb : uploadBuild assets cache idxs dt with
  | error e => simp
  | ok tasks =>
      simp only []
      have hkeys := uploadBuild_ok_keys assets cache idxs dt tasks hb
      have hinv : SchedInv
          { tasks := tasks.drop (min tasks.length plim),
            handles := tasks.take (min tasks.length plim), cache := cache,
            errors := [], syncs := 0, panicked := false } := by
        refine ⟨rfl, ?_⟩
        intro t ht
        simp only [List.mem_append] at ht
        rcases ht with hh | hh
        · exact hkeys t ((List.take_sublist _ _).subset hh)
        · exact hkeys t ((List.drop_sublist _ _).subset hh)
      have hfin := runLoop_inv plim dt orc (2 * tasks.length + 1) 0 _ hinv
      rw [hfin.1]
      simp only [Bool.false_eq_true, if_false]
      unfold uploadPost
      split_ifs <;> simp

end NoPanicLemmas

theorem removeFailedImages_ok (cache : Cache) :
    ∀ (idxs meta : List Nat), (∀ j ∈ idxs, (cacheGet cache j).isSome = true) →
      ∃ l, removeFailedImages cache idxs meta = Except.ok l := by
  intro idxs
  induction idxs with
  | nil => intro meta h; exact ⟨meta, rfl⟩
  | cons j rest ih =>
      intro meta h
      have hj := h j (List.mem_cons_self j rest)
      cases hc : cacheGet cache j with
      | none => rw [hc] at hj; cases hj
      | some item =>
          have hrest : ∀ q ∈ rest, (cacheGet cache q).isSome = true :=
            fun q hq => h q (List.mem_cons_of_mem j hq)
          rcases ih (if item.image_link = "" then meta.filter (fun x => x ≠ j)
            else meta) hrest with ⟨l, hl⟩
          exact ⟨l, by simp only [removeFailedImages, hc]; exact hl⟩

theorem removeFailedAnimations_no_missing (cache : Cache) :
    ∀ (idxs meta : List Nat), (∀ j ∈ idxs, (cacheGet cache j).isSome = true) →
      ∀ k, removeFailedAnimations cache idxs meta ≠
        Except.error (RemovalPanic.missingItem k) := by
  intro idxs
  induction idxs with
  | nil => intro meta h k hcon; cases hcon
  | cons j rest ih =>
      intro meta h k
      have hj := h j (List.mem_cons_self j rest)
      cases hc : cacheGet cache j with
      | none => rw [hc] at hj; cases hj
      | some item =>
          have hrest : ∀ q ∈ rest, (cacheGet cache q).isSome = true :=
            fun q hq => h q (List.mem_cons_of_mem j hq)
          cases hl : item.animation_link with
          | none =>
              intro hcon
              simp only [removeFailedAnimations, hc, hl] at hcon
              cases hcon
          | some link =>
              intro hcon
              simp only [removeFailedAnimations, hc, hl] at hcon
              exact ih _ hrest k hcon

/-- C7: a scheduled index with no cache entry surfaces as a typed error, never
as a crash: a missing asset while collecting paths makes the whole batch
build fail with an error value; a missing cache entry while building the
batch does the same; upload_data never reaches the completion-time lookup
panic; the post-stage removal loops cannot hit their lookup panic whenever
every index they visit has a cache entry; and change detection always leaves
every scheduled index with a cache entry, which is exactly the state the
removal loops run in. -/
theorem claim7_missing_entry_is_error_not_crash :
    (∀ (assets : List (Nat × AssetPair)) (cache : Cache) (idxs : List Nat)
       (dt : DataType),
       (∃ i ∈ idxs, assetsGet assets i = none) →
       ∃ e, uploadBuild assets cache idxs dt = Except.error e) ∧
    (∀ (cache : Cache) (dt : DataType) (ct : String) (fps : List FPathM),
       (∃ fp ∈ fps, cacheGet cache fp.stem = none) →
       ∃ e, buildTasks cache dt ct fps = Except.error e) ∧
    (∀ (plim : Nat) (assets : List (Nat × AssetPair)) (cache : Cache)
       (idxs : List Nat) (dt : DataType) (orc : Nat → Decision) (m : String),
       (uploadDataModel plim assets cache idxs dt orc).result ≠
         UpResult.panicRes m) ∧
    (∀ (cache : Cache) (idxs meta : List Nat),
       (∀ j ∈ idxs, (cacheGet cache j).isSome = true) →
       (∃ l, removeFailedImages cache idxs meta = Except.ok l) ∧
       (∀ k, removeFailedAnimations cache idxs meta ≠
         Except.error (RemovalPanic.missingItem k))) ∧
    (∀ (metaOk : AssetPair → Bool) (pairs : List (Nat × AssetPair))
       (cache0 : Cache),
       AllKeys (changeDetect metaOk pairs cache0 ⟨[], [], []⟩).cache
         (changeDetect metaOk pairs cache0 ⟨[], [], []⟩).indices) := by
  refine ⟨?_, ?_, ?_, ?_, ?_⟩
  · intro assets cache idxs dt h
    exact uploadBuild_error_of_missing assets cache idxs dt h
  · intro cache dt ct fps h
    exact buildTasks_error_of_missing cache dt ct fps h
  · intro plim assets cache idxs dt orc m
    exact uploadDataModel_no_panic plim assets cache idxs dt orc m
  · intro cache idxs meta h
    exact ⟨removeFailedImages_ok cache idxs meta h,
      removeFailedAnimations_no_missing cache idxs meta h⟩
  · intro metaOk pairs cache0
    refine changeDetect_allKeys metaOk pairs cache0 ⟨[], [], []⟩ ?_
    intro j hj
    simp at hj

/-- Witness for claim7_missing_entry_is_error_not_crash at concrete inputs. -/
theorem claim7_missing_entry_is_error_not_crash_witness :
    (∃ e, uploadBuild [] (sampleCache 1) [0] DataType.Media = Except.error e) ∧
    (∃ e, buildTasks [] DataType.Media "image/png" [⟨0, "png"⟩] =
      Except.error e) ∧
    (∃ l, removeFailedImages (sampleCache 1) [0] [0] = Except.ok l) := by
  have h := claim7_missing_entry_is_error_not_crash
  refine ⟨h.1 [] (sampleCache 1) [0] DataType.Media ⟨0, by decide, by decide⟩,
    h.2.1 [] DataType.Media "image/png" [⟨0, "png"⟩]
      ⟨⟨0, "png"⟩, by decide, by decide⟩,
    (h.2.2.2.1 (sampleCache 1) [0] [0] ?_).1⟩
  intro j hj
  have : j = 0 := by
    rcases List.mem_singleton.mp hj with h0
    exact h0
  subst this
  decide

/-- C6: evaluation of the code at the failing input.  Change detection
schedules animation upload for asset 1 only (animation list [1], image list
[0, 1]); the animation stage nevertheless hands the scheduler the image index
list [0, 1] with the Media tag, so even though every upload the backend was
asked to perform succeeds, the animation link of asset 1 is still the empty
placeholder afterwards, its index is dropped from the metadata schedule by
the animation removal loop, and the run ends with the incorrect-pair-count
error.  The claim says the stage uploads the scheduled animation index
subset; the code never does. -/
theorem claim6_animation_stage_uploads_image_list :
    (changeDetect (fun _ => true) [(0, samplePair 0), (1, animPair)]
        [(0, oldItem0)] ⟨[], [], []⟩).indices.animation = [1] ∧
    (changeDetect (fun _ => true) [(0, samplePair 0), (1, animPair)]
        [(0, oldItem0)] ⟨[], [], []⟩).indices.image = [0, 1] ∧
    claim6run.stage2 = some [0, 1] ∧
    (cacheGet claim6run.cache 1).map CacheItem.animation_link =
      some (some "") ∧
    claim6run.result =
      RunResult.errRun "Incorrect number of image/metadata pairs" := by
  decide

section SortAndKeys

theorem keyInsert_perm (kv : Nat × CacheItem) (l : Cache) :
    (keyInsert kv l).Perm (kv :: l) := by
  induction l with
  | nil => exact List.Perm.refl _
  | cons kw rest ih =>
      unfold keyInsert
      split_ifs with h
      · exact List.Perm.refl _
      · exact (List.Perm.cons kw ih).trans (List.Perm.swap kv kw rest)

theorem sortCache_perm (c : Cache) : (sortCache c).Perm c := by
  induction c with
  | nil => exact List.Perm.refl _
  | cons kv rest ih =>
      exact (keyInsert_perm kv (sortCache rest)).trans (List.Perm.cons kv ih)

theorem cacheGet_isSome_iff_mem (c : Cache) (q : Nat) :
    (cacheGet c q).isSome = true ↔ q ∈ keysOf c := by
  induction c with
  | nil => simp [cacheGet, keysOf]
  | cons kv rest ih =>
      cases kv with
      | mk a b =>
          by_cases h : a = q
          · subst h
            simp [cacheGet, keysOf]
          · have hne : ¬ q = a := fun hh => h hh.symm
            simp [cacheGet, keysOf, h, hne, ih]

theorem cacheHas_sortCache (c : Cache) (q : Nat) :
    cacheHas (sortCache c) q = cacheHas c q := by
  have hperm : (keysOf (sortCache c)).Perm (keysOf c) :=
    (sortCache_perm c).map Prod.fst
  unfold cacheHas
  rw [Bool.eq_iff_iff, cacheGet_isSome_iff_mem, cacheGet_isSome_iff_mem]
  exact hperm.mem_iff

theorem schedComplete_hasKey (dt : DataType) (d : Decision) (s : SchedState)
    (q : Nat) : cacheHas (schedComplete dt d s).cache q = cacheHas s.cache q := by
  simp only [schedComplete]
  cases d.outcome with
  | okLink link =>
      cases hc : cacheGet s.cache (pickHandle s.handles d.pick).asset_id with
      | none => rfl
      | some it => simp [cacheHas, cacheGet_modify_isSome]
  | failMsg m => rfl

theorem schedReplenish_hasKey (plim : Nat) (s1 : SchedState) (q : Nat) :
    cacheHas (schedReplenish plim s1).cache q = cacheHas s1.cache q := by
  unfold schedReplenish
  split_ifs <;> rfl

theorem schedStep_hasKey (plim : Nat) (dt : DataType) (d : Decision)
    (s : SchedState) (q : Nat) :
    cacheHas (schedStep plim dt d s).cache q = cacheHas s.cache q := by
  unfold schedStep
  split_ifs with hne
  · rfl
  · rw [schedReplenish_hasKey, schedComplete_hasKey]

theorem runLoop_hasKey (plim : Nat) (dt : DataType) (orc : Nat → Decision) :
    ∀ (fuel n : Nat) (s : SchedState) (q : Nat),
      cacheHas (runLoop plim dt orc fuel n s).cache q = cacheHas s.cache q := by
  intro fuel
  induction fuel with
  | zero => intro n s q; rfl
  | succ m ih =>
      intro n s q
      unfold runLoop
      split_ifs with h1 h2 h3
      · rfl
      · rfl
      · rfl
      · rw [ih, schedStep_hasKey]

theorem uploadDataModel_hasKey (plim : Nat) (assets : List (Nat × AssetPair))
    (cache : Cache) (idxs : List Nat) (dt : DataType) (orc : Nat → Decision)
    (q : Nat) :
    cacheHas (uploadDataModel plim assets cache idxs dt orc).cache q =
      cacheHas cache q := by
  unfold uploadDataModel
  cases hb : uploadBuild assets cache idxs dt with
  | error e => rfl
  | ok tasks =>
      simp only []
      split_ifs with hp
      · rw [runLoop_hasKey]
      · unfold uploadPost
        split_ifs <;> rw [runLoop_hasKey]

theorem reconcile_hasKey (pairsLen : Nat) (cache : Cache)
    (errors : List String) (syncs : Nat) (st1 st2 st3 : Option (List Nat))
    (q : Nat) :
    cacheHas (reconcile pairsLen cache errors syncs st1 st2 st3).cache q =
      cacheHas cache q := by
  simp only [reconcile]
  split_ifs <;> exact cacheHas_sortCache cache q

theorem stage3part_hasKey (plim : Nat) (pairs : List (Nat × AssetPair))
    (orc3 : Nat → Decision) (pairsLen : Nat) (cache : Cache)
    (errors : List String) (syncs : Nat) (st1 st2 : Option (List Nat))
    (metaIdx : List Nat) (q : Nat) :
    cacheHas (stage3part plim pairs orc3 pairsLen cache errors syncs st1 st2
      metaIdx).cache q = cacheHas cache q := by
  by_cases h : metaIdx.isEmpty = true
  · have hstep : stage3part plim pairs orc3 pairsLen cache errors syncs st1 st2
        metaIdx = reconcile pairsLen cache errors syncs st1 st2 none := by
      simp only [stage3part]
      rw [if_neg (by simp [h])]
    rw [hstep]
    exact reconcile_hasKey pairsLen cache errors syncs st1 st2 none q
  · simp only [stage3part]
    rw [if_pos h]
    cases hu : (uploadDataModel plim pairs cache metaIdx DataType.Metadata
        orc3).result with
    | fatal e =>
        exact uploadDataModel_hasKey plim pairs cache metaIdx
          DataType.Metadata orc3 q
    | panicRes m =>
        exact uploadDataModel_hasKey plim pairs cache metaIdx
          DataType.Metadata orc3 q
    | okErrs es =>
        rw [reconcile_hasKey]
        exact uploadDataModel_hasKey plim pairs cache metaIdx
          DataType.Metadata orc3 q

end SortAndKeys

theorem stage2part_hasKey (plim : Nat) (pairs : List (Nat × AssetPair))
    (orc2 orc3 : Nat → Decision) (pairsLen : Nat) (cache : Cache)
    (errors : List String) (syncs : Nat) (st1 : Option (List Nat))
    (imgIdx animIdx metaIdx : List Nat) (q : Nat) :
    cacheHas (stage2part plim pairs orc2 orc3 pairsLen cache errors syncs st1
      imgIdx animIdx metaIdx).cache q = cacheHas cache q := by
  have hu := uploadDataModel_hasKey plim pairs cache imgIdx DataType.Media
    orc2 q
  by_cases h : animIdx.isEmpty = true
  · have hstep : stage2part plim pairs orc2 orc3 pairsLen cache errors syncs
        st1 imgIdx animIdx metaIdx =
        stage3part plim pairs orc3 pairsLen cache errors syncs st1 none
          metaIdx := by
      simp only [stage2part]
      rw [if_neg (by simp [h])]
    rw [hstep]
    exact stage3part_hasKey plim pairs orc3 pairsLen cache errors syncs st1
      none metaIdx q
  · simp only [stage2part]
    rw [if_pos h]
    cases hr : (uploadDataModel plim pairs cache imgIdx DataType.Media
        orc2).result with
    | fatal e => exact hu
    | panicRes m => exact hu
    | okErrs es =>
        dsimp only []
        by_cases hm : metaIdx.isEmpty = true
        · rw [if_neg (by simp [hm])]
          rw [stage3part_hasKey]
          exact hu
        · rw [if_pos hm]
          cases hrem : removeFailedAnimations
              (uploadDataModel plim pairs cache imgIdx DataType.Media
                orc2).cache animIdx metaIdx with
          | error p => exact hu
          | ok meta' =>
              rw [stage3part_hasKey]
              exact hu

theorem stage1part_hasKey (plim : Nat) (pairs : List (Nat × AssetPair))
    (orc1 orc2 orc3 : Nat → Decision) (pairsLen : Nat) (cache : Cache)
    (imgIdx animIdx metaIdx : List Nat) (q : Nat) :
    cacheHas (stage1part plim pairs orc1 orc2 orc3 pairsLen cache imgIdx
      animIdx metaIdx).cache q = cacheHas cache q := by
  have hu := uploadDataModel_hasKey plim pairs cache imgIdx DataType.Media
    orc1 q
  by_cases h : imgIdx.isEmpty = true
  · have hstep : stage1part plim pairs orc1 orc2 orc3 pairsLen cache imgIdx
        animIdx metaIdx =
        stage2part plim pairs orc2 orc3 pairsLen cache [] 0 none imgIdx
          animIdx metaIdx := by
      simp only [stage1part]
      rw [if_neg (by simp [h])]
    rw [hstep]
    exact stage2part_hasKey plim pairs orc2 orc3 pairsLen cache [] 0 none
      imgIdx animIdx metaIdx q
  · simp only [stage1part]
    rw [if_pos h]
    cases hr : (uploadDataModel plim pairs cache imgIdx DataType.Media
        orc1).result with
    | fatal e => exact hu
    | panicRes m => exact hu
    | okErrs es =>
        dsimp only []
        by_cases hm : metaIdx.isEmpty = true
        · rw [if_neg (by simp [hm])]
          rw [stage2part_hasKey]
          exact hu
        · rw [if_pos hm]
          cases hrem : removeFailedImages
              (uploadDataModel plim pairs cache imgIdx DataType.Media
                orc1).cache imgIdx metaIdx with
          | error p => exact hu
          | ok meta' =>
              rw [stage2part_hasKey]
              exact hu

/-- The upload stages and reconciliation neither add nor remove cache keys:
key membership after a full run equals key membership right after change
detection. -/
theorem processUploadModel_hasKey (plim : Nat) (metaOk : AssetPair → Bool)
    (pairs : List (Nat × AssetPair)) (cache0 : Cache)
    (orc1 orc2 orc3 : Nat → Decision) (q : Nat) :
    cacheHas (processUploadModel plim metaOk pairs cache0 orc1 orc2
      orc3).cache q =
    cacheHas (changeDetect metaOk pairs cache0 ⟨[], [], []⟩).cache q := by
  simp only [processUploadModel]
  split_ifs with h1 h2 h3
  · rfl
  · rfl
  · rw [stage1part_hasKey]
  · rw [reconcile_hasKey]

theorem detectStep_key_iff (i : Nat) (p : AssetPair) (c : Cache)
    (idx : AssetType) (q : Nat) :
    (cacheGet (detectStep i p c idx).1 q).isSome = true ↔
      ((cacheGet c q).isSome = true ∨ q = i) := by
  unfold detectStep
  cases hg : cacheGet c i with
  | none =>
      simp only []
      split_ifs <;> simp [cacheGet_insert_isSome]
  | some item =>
      simp only []
      split_ifs <;>
        simp [cacheGet_insert_isSome, cacheGet_modify_isSome] <;>
        rintro rfl <;> simp [hg]

theorem changeDetect_key_super (metaOk : AssetPair → Bool)
    (pairs : List (Nat × AssetPair)) :
    ∀ (c : Cache) (idx : AssetType) (q : Nat), cacheHas c q = true →
      cacheHas (changeDetect metaOk pairs c idx).cache q = true := by
  induction pairs with
  | nil => intro c idx q h; simpa [changeDetect] using h
  | cons ip rest ih =>
      intro c idx q h
      cases ip with
      | mk i p =>
          have hstep : cacheHas (detectStep i p c idx).1 q = true :=
            detectStep_key_mono i p c idx q h
          by_cases hm : metaOk p
          · simpa [changeDetect, hm] using ih _ _ q hstep
          · simpa [changeDetect, hm] using hstep

theorem changeDetect_key_iff (metaOk : AssetPair → Bool)
    (pairs : List (Nat × AssetPair)) :
    ∀ (c : Cache) (idx : AssetType) (q : Nat),
      (changeDetect metaOk pairs c idx).aborted = false →
      (cacheHas (changeDetect metaOk pairs c idx).cache q = true ↔
        (cacheHas c q = true ∨ q ∈ pairs.map Prod.fst)) := by
  induction pairs with
  | nil => intro c idx q h; simp [changeDetect, cacheHas]
  | cons ip rest ih =>
      intro c idx q h
      cases ip with
      | mk i p =>
          by_cases hm : metaOk p
          · rw [show changeDetect metaOk ((i, p) :: rest) c idx =
                changeDetect metaOk rest (detectStep i p c idx).1
                  (detectStep i p c idx).2 by simp [changeDetect, hm]] at h ⊢
            rw [ih _ _ q h]
            unfold cacheHas
            rw [detectStep_key_iff]
            simp only [List.map_cons, List.mem_cons]
            tauto
          · rw [show changeDetect metaOk ((i, p) :: rest) c idx =
                ⟨(detectStep i p c idx).1, (detectStep i p c idx).2, true⟩
                by simp [changeDetect, hm]] at h
            cases h

/-- C9 counterexample: a run over a single asset (index 0) with a prior cache
also holding a stale entry under key 5 returns success (the stale entry has
empty links, so reconciliation still counts 1 of 1), yet the cache key set
after the run still contains 5, which is not a current asset index: after a
successful run the key set can strictly exceed the asset-pair index set. -/
theorem claim9_counterexample :
    claim9run.result = RunResult.okRun ∧
    cacheHas claim9run.cache 5 = true ∧
    ¬ (5 ∈ ([(0, samplePair 0)] : List (Nat × AssetPair)).map Prod.fst) := by
  decide

/-- C9 amended: the cache key set after any run (complete or aborted) is a
superset of the key set before the run; and after a run that returns success
it equals the union of the prior key set and the current asset index set:
equality with the asset index set holds exactly when the prior keys were
already contained in it. -/
theorem claim9_amended_monotonic_keys (plim : Nat) (metaOk : AssetPair → Bool)
    (pairs : List (Nat × AssetPair)) (cache0 : Cache)
    (orc1 orc2 orc3 : Nat → Decision) (q : Nat) :
    (cacheHas cache0 q = true →
      cacheHas (processUploadModel plim metaOk pairs cache0 orc1 orc2
        orc3).cache q = true) ∧
    ((processUploadModel plim metaOk pairs cache0 orc1 orc2 orc3).result =
        RunResult.okRun →
      (cacheHas (processUploadModel plim metaOk pairs cache0 orc1 orc2
          orc3).cache q = true ↔
        (cacheHas cache0 q = true ∨ q ∈ pairs.map Prod.fst))) ∧
    ((processUploadModel plim metaOk pairs cache0 orc1 orc2 orc3).result =
        RunResult.okRun →
      (∀ r ∈ keysOf cache0, r ∈ pairs.map Prod.fst) →
      (cacheHas (processUploadModel plim metaOk pairs cache0 orc1 orc2
          orc3).cache q = true ↔ q ∈ pairs.map Prod.fst)) := by
  have hkeys := processUploadModel_hasKey plim metaOk pairs cache0 orc1 orc2
    orc3 q
  have habort : (processUploadModel plim metaOk pairs cache0 orc1 orc2
      orc3).result = RunResult.okRun →
      (changeDetect metaOk pairs cache0 ⟨[], [], []⟩).aborted = false := by
    intro hok
    by_contra hab
    rw [Bool.not_eq_false] at hab
    simp only [processUploadModel, hab, if_true] at hok
    cases hok
  refine ⟨?_, ?_, ?_⟩
  · intro h
    rw [hkeys]
    exact changeDetect_key_super metaOk pairs cache0 ⟨[], [], []⟩ q h
  · intro hok
    rw [hkeys]
    exact changeDetect_key_iff metaOk pairs cache0 ⟨[], [], []⟩ q (habort hok)
  · intro hok hsub
    rw [hkeys, changeDetect_key_iff metaOk pairs cache0 ⟨[], [], []⟩ q
      (habort hok)]
    constructor
    · rintro (h | h)
      · exact hsub q ((cacheGet_isSome_iff_mem cache0 q).mp h)
      · exact h
    · exact fun h => Or.inr h

/-- Witness for claim9_amended_monotonic_keys on a concrete successful run. -/
theorem claim9_amended_monotonic_keys_witness :
    cacheHas (processUploadModel 1 (fun _ => true) [(0, samplePair 0)]
      [(0, goodItem0)] orcOk orcOk orcOk).cache 0 = true ∧
    (cacheHas (processUploadModel 1 (fun _ => true) [(0, samplePair 0)]
        [(0, goodItem0)] orcOk orcOk orcOk).cache 0 = true ↔
      0 ∈ ([(0, samplePair 0)] : List (Nat × AssetPair)).map Prod.fst) := by
  have h := claim9_amended_monotonic_keys 1 (fun _ => true)
    [(0, samplePair 0)] [(0, goodItem0)] orcOk orcOk orcOk 0
  refine ⟨h.1 (by decide), h.2.2 (by decide) ?_⟩
  intro r hr
  have : r = 0 := by
    simpa [keysOf] using hr
  subst this
  decide

/-- C10: even when change detection schedules nothing (and did not abort),
process_upload still skips all three upload stages yet sorts the cache keys,
writes exactly the one final checkpoint, runs reconciliation over the whole
cache, and returns the Incomplete error with the incorrect-pair-count
message whenever the number of complete entries differs from the number of
asset pairs, despite having uploaded nothing. -/
theorem claim10_reconcile_runs_without_uploads (plim : Nat)
    (metaOk : AssetPair → Bool) (pairs : List (Nat × AssetPair))
    (cache0 : Cache) (orc1 orc2 orc3 : Nat → Decision)
    (hz : (changeDetect metaOk pairs cache0 ⟨[], [], []⟩).indices =
      ⟨[], [], []⟩)
    (ha : (changeDetect metaOk pairs cache0 ⟨[], [], []⟩).aborted = false) :
    (processUploadModel plim metaOk pairs cache0 orc1 orc2 orc3).cache =
      sortCache (changeDetect metaOk pairs cache0 ⟨[], [], []⟩).cache ∧
    (processUploadModel plim metaOk pairs cache0 orc1 orc2 orc3).syncs = 1 ∧
    (processUploadModel plim metaOk pairs cache0 orc1 orc2 orc3).stage1 =
      none ∧
    (processUploadModel plim metaOk pairs cache0 orc1 orc2 orc3).stage2 =
      none ∧
    (processUploadModel plim metaOk pairs cache0 orc1 orc2 orc3).stage3 =
      none ∧
    (processUploadModel plim metaOk pairs cache0 orc1 orc2 orc3).errors =
      [] ∧
    (processUploadModel plim metaOk pairs cache0 orc1 orc2 orc3).result =
      (if countComplete (sortCache (changeDetect metaOk pairs cache0
          ⟨[], [], []⟩).cache) ≠ pairs.length then
        RunResult.errRun "Incorrect number of image/metadata pairs"
       else RunResult.okRun) := by
  have hrun : processUploadModel plim metaOk pairs cache0 orc1 orc2 orc3 =
      reconcile pairs.length
        (changeDetect metaOk pairs cache0 ⟨[], [], []⟩).cache [] 0 none none
        none := by
    simp only [processUploadModel, ha, hz]
    simp
  rw [hrun]
  simp only [reconcile]
  split_ifs with hc herr
  · simp [hc]
  · exact absurd rfl herr
  · simp [hc]

/-- Witness for claim10_reconcile_runs_without_uploads: one unchanged asset
plus an extra complete stale entry make the complete count 2 against 1 asset
pair, so the zero-upload run still ends with the incorrect-pair-count
error. -/
theorem claim10_reconcile_runs_without_uploads_witness :
    (processUploadModel 1 (fun _ => true) [(0, samplePair 0)]
      [(0, goodItem0), (7, goodItem0)] orcOk orcOk orcOk).syncs = 1 ∧
    (processUploadModel 1 (fun _ => true) [(0, samplePair 0)]
      [(0, goodItem0), (7, goodItem0)] orcOk orcOk orcOk).stage1 = none ∧
    (processUploadModel 1 (fun _ => true) [(0, samplePair 0)]
      [(0, goodItem0), (7, goodItem0)] orcOk orcOk orcOk).result =
      RunResult.errRun "Incorrect number of image/metadata pairs" := by
  have h := claim10_reconcile_runs_without_uploads 1 (fun _ => true)
    [(0, samplePair 0)] [(0, goodItem0), (7, goodItem0)] orcOk orcOk orcOk
    (by decide) (by decide)
  refine ⟨h.2.1, h.2.2.1, ?_⟩
  rw [h.2.2.2.2.2.2]
  decide

section NodupAndPerm

theorem cacheModify_keysOf (c : Cache) (k : Nat) (f : CacheItem → CacheItem) :
    keysOf (cacheModify c k f) = keysOf c := by
  induction c with
  | nil => rfl
  | cons kv rest ih =>
      cases kv with
      | mk a b =>
          by_cases h : a = k
          · simp [cacheModify, h, keysOf]
          · simp only [cacheModify, if_neg h, keysOf, List.map_cons]
            exact congrArg (List.cons a) ih

theorem mem_keysOf_insert (c : Cache) (k q : Nat) (v : CacheItem) :
    q ∈ keysOf (cacheInsert c k v) ↔ (q ∈ keysOf c ∨ q = k) := by
  rw [← cacheGet_isSome_iff_mem, cacheGet_insert_isSome,
    cacheGet_isSome_iff_mem]

theorem cacheInsert_nodup (c : Cache) (k : Nat) (v : CacheItem)
    (h : (keysOf c).Nodup) : (keysOf (cacheInsert c k v)).Nodup := by
  induction c with
  | nil => simp [cacheInsert, keysOf]
  | cons kv rest ih =>
      cases kv with
      | mk a b =>
          rw [show keysOf ((a, b) :: rest) = a :: keysOf rest from rfl,
            List.nodup_cons] at h
          by_cases hk : a = k
          · subst hk
            rw [show cacheInsert ((a, b) :: rest) a v = (a, v) :: rest by
              simp [cacheInsert]]
            rw [show keysOf ((a, v) :: rest) = a :: keysOf rest from rfl,
              List.nodup_cons]
            exact h
          · rw [show cacheInsert ((a, b) :: rest) k v =
                (a, b) :: cacheInsert rest k v by simp [cacheInsert, hk]]
            rw [show keysOf ((a, b) :: cacheInsert rest k v) =
                a :: keysOf (cacheInsert rest k v) from rfl, List.nodup_cons]
            refine ⟨?_, ih h.2⟩
            rw [mem_keysOf_insert]
            rintro (hm | hm)
            · exact h.1 hm
            · exact hk hm

theorem detectStep_nodup (i : Nat) (p : AssetPair) (c : Cache)
    (idx : AssetType) (h : (keysOf c).Nodup) :
    (keysOf (detectStep i p c idx).1).Nodup := by
  unfold detectStep
  cases hg : cacheGet c i with
  | none =>
      simp only []
      split_ifs <;> exact cacheInsert_nodup c i _ h
  | some item =>
      simp only []
      split_ifs <;>
        first
          | exact cacheInsert_nodup c i _ h
          | (rw [cacheModify_keysOf]; exact h)
          | exact h

theorem changeDetect_nodup (metaOk : AssetPair → Bool)
    (pairs : List (Nat × AssetPair)) :
    ∀ (c : Cache) (idx : AssetType), (keysOf c).Nodup →
      (keysOf (changeDetect metaOk pairs c idx).cache).Nodup := by
  induction pairs with
  | nil => intro c idx h; simpa [changeDetect] using h
  | cons ip rest ih =>
      intro c idx h
      cases ip with
      | mk i p =>
          have hstep := detectStep_nodup i p c idx h
          by_cases hm : metaOk p
          · simpa [changeDetect, hm] using ih _ _ hstep
          · simpa [changeDetect, hm] using hstep

theorem cacheGet_none_iff (c : Cache) (q : Nat) :
    cacheGet c q = none ↔ q ∉ keysOf c := by
  rw [← cacheGet_isSome_iff_mem]
  cases cacheGet c q <;> simp

theorem cacheGet_eq_some_iff_mem (c : Cache) (q : Nat) (v : CacheItem)
    (h : (keysOf c).Nodup) : cacheGet c q = some v ↔ (q, v) ∈ c := by
  induction c with
  | nil => simp [cacheGet]
  | cons kv rest ih =>
      cases kv with
      | mk a b =>
          simp only [keysOf, List.map_cons, List.nodup_cons] at h
          by_cases hq : a = q
          · subst hq
            have hnot : (a, v) ∉ rest := fun hm =>
              h.1 (List.mem_map.mpr ⟨(a, v), hm, rfl⟩)
            rw [show cacheGet ((a, b) :: rest) a = some b by simp [cacheGet]]
            simp only [List.mem_cons]
            constructor
            · intro hh
              have hbv : b = v := Option.some.inj hh
              subst hbv
              exact Or.inl rfl
            · rintro (hh | hm)
              · have hvb : v = b := (Prod.ext_iff.mp hh).2
                rw [hvb]
              · exact absurd hm hnot
          · have hne : (q, v) ≠ (a, b) := by
              intro hh
              exact hq (congrArg Prod.fst hh).symm
            simp only [cacheGet, if_neg hq, List.mem_cons]
            rw [ih h.2]
            constructor
            · exact fun hm => Or.inr hm
            · rintro (hh | hm)
              · exact absurd hh hne
              · exact hm

theorem cacheGet_perm (c c' : Cache) (hp : c.Perm c')
    (h : (keysOf c).Nodup) (q : Nat) : cacheGet c q = cacheGet c' q := by
  have h' : (keysOf c').Nodup := ((hp.map Prod.fst).nodup_iff).mp h
  cases hg : cacheGet c q with
  | some v =>
      have hm : (q, v) ∈ c := (cacheGet_eq_some_iff_mem c q v h).mp hg
      have hm' : (q, v) ∈ c' := hp.mem_iff.mp hm
      exact ((cacheGet_eq_some_iff_mem c' q v h').mpr hm').symm
  | none =>
      have hm : q ∉ keysOf c := (cacheGet_none_iff c q).mp hg
      have hm' : q ∉ keysOf c' := fun hh =>
        hm (((hp.map Prod.fst).mem_iff).mpr hh)
      exact ((cacheGet_none_iff c' q).mpr hm').symm

theorem cacheGet_sortCache (c : Cache) (h : (keysOf c).Nodup) (q : Nat) :
    cacheGet (sortCache c) q = cacheGet c q := by
  have hs : (keysOf (sortCache c)).Nodup :=
    (((sortCache_perm c).map Prod.fst).nodup_iff).mpr h
  exact cacheGet_perm (sortCache c) c (sortCache_perm c) hs q

end NodupAndPerm

section Skeleton

theorem skelOk_refl (a : CacheItem) : SkelOk a a := ⟨rfl, rfl, rfl, rfl⟩

theorem skelOk_trans {a b c : CacheItem} (h1 : SkelOk a b) (h2 : SkelOk b c) :
    SkelOk a c := by
  obtain ⟨i1, m1, ah1, al1⟩ := h1
  obtain ⟨i2, m2, ah2, al2⟩ := h2
  exact ⟨i2.trans i1, m2.trans m1, ah2.trans ah1, al2.trans al1⟩

theorem skelRel_refl (c : Cache) : SkelRel c c := by
  intro k
  cases hg : cacheGet c k with
  | none => exact Or.inl ⟨rfl, rfl⟩
  | some a => exact Or.inr ⟨a, a, rfl, rfl, skelOk_refl a⟩

theorem skelRel_trans {c1 c2 c3 : Cache} (h1 : SkelRel c1 c2)
    (h2 : SkelRel c2 c3) : SkelRel c1 c3 := by
  intro k
  rcases h1 k with ⟨hn1, hn2⟩ | ⟨a, b, ha, hb, hab⟩
  · rcases h2 k with ⟨_, hn3⟩ | ⟨b, c, hb, _, _⟩
    · exact Or.inl ⟨hn1, hn3⟩
    · rw [hn2] at hb; cases hb
  · rcases h2 k with ⟨hn2, _⟩ | ⟨b', c, hb', hc, hbc⟩
    · rw [hb] at hn2; cases hn2
    · rw [hb] at hb'
      have : b = b' := Option.some.inj hb'
      subst this
      exact Or.inr ⟨a, c, ha, hc, skelOk_trans hab hbc⟩

theorem linkWriter_skel (dt : DataType) (link : String) (a : CacheItem) :
    SkelOk a (linkWriter dt link a) := by
  cases dt <;> exact ⟨rfl, rfl, rfl, rfl⟩

theorem cacheModify_skel (c : Cache) (k : Nat) (dt : DataType)
    (link : String) :
    SkelRel c (cacheModify c k (linkWriter dt link)) := by
  intro q
  by_cases h : q = k
  · subst h
    rw [cacheGet_modify_self]
    cases hg : cacheGet c q with
    | none => exact Or.inl ⟨rfl, rfl⟩
    | some a =>
        exact Or.inr ⟨a, linkWriter dt link a, rfl, rfl, linkWriter_skel dt link a⟩
  · rw [cacheGet_modify_other c k q _ h]
    cases hg : cacheGet c q with
    | none => exact Or.inl ⟨rfl, rfl⟩
    | some a => exact Or.inr ⟨a, a, rfl, rfl, skelOk_refl a⟩

theorem schedComplete_skel (dt : DataType) (d : Decision) (s : SchedState) :
    SkelRel s.cache (schedComplete dt d s).cache := by
  simp only [schedComplete]
  cases d.outcome with
  | okLink link =>
      cases hc : cacheGet s.cache (pickHandle s.handles d.pick).asset_id with
      | none => exact skelRel_refl _
      | some it => exact cacheModify_skel s.cache _ dt link
  | failMsg m => exact skelRel_refl _

theorem schedReplenish_cache (plim : Nat) (s1 : SchedState) :
    (schedReplenish plim s1).cache = s1.cache := by
  unfold schedReplenish
  split_ifs <;> rfl

theorem schedStep_skel (plim : Nat) (dt : DataType) (d : Decision)
    (s : SchedState) : SkelRel s.cache (schedStep plim dt d s).cache := by
  unfold schedStep
  split_ifs with hne
  · exact skelRel_refl _
  · rw [schedReplenish_cache]
    exact schedComplete_skel dt d s

theorem runLoop_skel (plim : Nat) (dt : DataType) (orc : Nat → Decision) :
    ∀ (fuel n : Nat) (s : SchedState),
      SkelRel s.cache (runLoop plim dt orc fuel n s).cache := by
  intro fuel
  induction fuel with
  | zero => intro n s; exact skelRel_refl _
  | succ m ih =>
      intro n s
      unfold runLoop
      split_ifs with h1 h2 h3
      · exact skelRel_refl _
      · exact skelRel_refl _
      · exact skelRel_refl _
      · exact skelRel_trans (schedStep_skel plim dt (orc n) s) (ih (n + 1) _)

theorem uploadDataModel_skel (plim : Nat) (assets : List (Nat × AssetPair))
    (cache : Cache) (idxs : List Nat) (dt : DataType) (orc : Nat → Decision) :
    SkelRel cache (uploadDataModel plim assets cache idxs dt orc).cache := by
  unfold uploadDataModel
  cases hb : uploadBuild assets cache idxs dt with
  | error e => exact skelRel_refl _
  | ok tasks =>
      simp only []
      have hs0 := runLoop_skel plim dt orc (2 * tasks.length + 1) 0
        { tasks := tasks.drop (min tasks.length plim),
          handles := tasks.take (min tasks.length plim), cache := cache,
          errors := [], syncs := 0, panicked := false }
      split_ifs with hp
      · exact hs0
      · unfold uploadPost
        split_ifs <;> exact hs0

theorem schedComplete_keysOf (dt : DataType) (d : Decision) (s : SchedState) :
    keysOf (schedComplete dt d s).cache = keysOf s.cache := by
  simp only [schedComplete]
  cases d.outcome with
  | okLink link =>
      cases hc : cacheGet s.cache (pickHandle s.handles d.pick).asset_id with
      | none => rfl
      | some it => exact cacheModify_keysOf s.cache _ _
  | failMsg m => rfl

theorem runLoop_keysOf (plim : Nat) (dt : DataType) (orc : Nat → Decision) :
    ∀ (fuel n : Nat) (s : SchedState),
      keysOf (runLoop plim dt orc fuel n s).cache = keysOf s.cache := by
  intro fuel
  induction fuel with
  | zero => intro n s; rfl
  | succ m ih =>
      intro n s
      unfold runLoop
      split_ifs with h1 h2 h3
      · rfl
      · rfl
      · rfl
      · rw [ih]
        unfold schedStep
        rw [if_neg h3, schedReplenish_cache, schedComplete_keysOf]

theorem uploadDataModel_keysOf (plim : Nat) (assets : List (Nat × AssetPair))
    (cache : Cache) (idxs : List Nat) (dt : DataType) (orc : Nat → Decision) :
    keysOf (uploadDataModel plim assets cache idxs dt orc).cache =
      keysOf cache := by
  unfold uploadDataModel
  cases hb : uploadBuild assets cache idxs dt with
  | error e => rfl
  | ok tasks =>
      simp only []
      split_ifs with hp
      · rw [runLoop_keysOf]
      · unfold uploadPost
        split_ifs <;> rw [runLoop_keysOf]

end Skeleton

section StageSpecs

theorem reconcile_cache (pairsLen : Nat) (cache : Cache)
    (errors : List String) (syncs : Nat) (st1 st2 st3 : Option (List Nat)) :
    (reconcile pairsLen cache errors syncs st1 st2 st3).cache =
      sortCache cache := by
  simp only [reconcile]
  split_ifs <;> rfl

theorem stage3part_spec (plim : Nat) (pairs : List (Nat × AssetPair))
    (orc3 : Nat → Decision) (pairsLen : Nat) (cache : Cache)
    (errors : List String) (syncs : Nat) (st1 st2 : Option (List Nat))
    (metaIdx : List Nat)
    (hok : (stage3part plim pairs orc3 pairsLen cache errors syncs st1 st2
      metaIdx).result = RunResult.okRun) :
    ∃ c', (stage3part plim pairs orc3 pairsLen cache errors syncs st1 st2
        metaIdx).cache = sortCache c' ∧
      SkelRel cache c' ∧ keysOf c' = keysOf cache := by
  by_cases h : metaIdx.isEmpty = true
  · have hstep : stage3part plim pairs orc3 pairsLen cache errors syncs st1
        st2 metaIdx = reconcile pairsLen cache errors syncs st1 st2 none := by
      simp only [stage3part]
      rw [if_neg (by simp [h])]
    rw [hstep, reconcile_cache]
    exact ⟨cache, rfl, skelRel_refl cache, rfl⟩
  · rw [show stage3part plim pairs orc3 pairsLen cache errors syncs st1 st2
        metaIdx = _ by simp only [stage3part]; rw [if_pos h]] at hok ⊢
    cases hu : (uploadDataModel plim pairs cache metaIdx DataType.Metadata
        orc3).result with
    | fatal e => rw [hu] at hok; simp at hok
    | panicRes m => rw [hu] at hok; simp at hok
    | okErrs es =>
        dsimp only []
        rw [reconcile_cache]
        exact ⟨(uploadDataModel plim pairs cache metaIdx DataType.Metadata
            orc3).cache, rfl,
          uploadDataModel_skel plim pairs cache metaIdx DataType.Metadata orc3,
          uploadDataModel_keysOf plim pairs cache metaIdx DataType.Metadata
            orc3⟩

theorem stage2part_spec (plim : Nat) (pairs : List (Nat × AssetPair))
    (orc2 orc3 : Nat → Decision) (pairsLen : Nat) (cache : Cache)
    (errors : List String) (syncs : Nat) (st1 : Option (List Nat))
    (imgIdx animIdx metaIdx : List Nat)
    (hok : (stage2part plim pairs orc2 orc3 pairsLen cache errors syncs st1
      imgIdx animIdx metaIdx).result = RunResult.okRun) :
    ∃ c', (stage2part plim pairs orc2 orc3 pairsLen cache errors syncs st1
        imgIdx animIdx metaIdx).cache = sortCache c' ∧
      SkelRel cache c' ∧ keysOf c' = keysOf cache := by
  have hskel := uploadDataModel_skel plim pairs cache imgIdx DataType.Media
    orc2
  have hkeys := uploadDataModel_keysOf plim pairs cache imgIdx DataType.Media
    orc2
  by_cases h : animIdx.isEmpty = true
  · have hstep : stage2part plim pairs orc2 orc3 pairsLen cache errors syncs
        st1 imgIdx animIdx metaIdx =
        stage3part plim pairs orc3 pairsLen cache errors syncs st1 none
          metaIdx := by
      simp only [stage2part]
      rw [if_neg (by simp [h])]
    rw [hstep] at hok ⊢
    exact stage3part_spec plim pairs orc3 pairsLen cache errors syncs st1
      none metaIdx hok
  · rw [show stage2part plim pairs orc2 orc3 pairsLen cache errors syncs st1
        imgIdx animIdx metaIdx = _ by simp only [stage2part]; rw [if_pos h]]
      at hok ⊢
    cases hu : (uploadDataModel plim pairs cache imgIdx DataType.Media
        orc2).result with
    | fatal e => rw [hu] at hok; simp at hok
    | panicRes m => rw [hu] at hok; simp at hok
    | okErrs es =>
        rw [hu] at hok
        dsimp only [] at hok ⊢
        by_cases hm : metaIdx.isEmpty = true
        · rw [if_neg (by simp [hm])] at hok ⊢
          rcases stage3part_spec plim pairs orc3 pairsLen _ _ _ st1
            (some imgIdx) metaIdx hok with ⟨c', hc1, hc2, hc3⟩
          exact ⟨c', hc1, skelRel_trans hskel hc2, hc3.trans hkeys⟩
        · rw [if_pos hm] at hok ⊢
          cases hrem : removeFailedAnimations
              (uploadDataModel plim pairs cache imgIdx DataType.Media
                orc2).cache animIdx metaIdx with
          | error p => rw [hrem] at hok; simp at hok
          | ok meta' =>
              rw [hrem] at hok
              dsimp only [] at hok ⊢
              rcases stage3part_spec plim pairs orc3 pairsLen _ _ _ st1
                (some imgIdx) meta' hok with ⟨c', hc1, hc2, hc3⟩
              exact ⟨c', hc1, skelRel_trans hskel hc2, hc3.trans hkeys⟩

theorem stage1part_spec (plim : Nat) (pairs : List (Nat × AssetPair))
    (orc1 orc2 orc3 : Nat → Decision) (pairsLen : Nat) (cache : Cache)
    (imgIdx animIdx metaIdx : List Nat)
    (hok : (stage1part plim pairs orc1 orc2 orc3 pairsLen cache imgIdx
      animIdx metaIdx).result = RunResult.okRun) :
    ∃ c', (stage1part plim pairs orc1 orc2 orc3 pairsLen cache imgIdx animIdx
        metaIdx).cache = sortCache c' ∧
      SkelRel cache c' ∧ keysOf c' = keysOf cache := by
  have hskel := uploadDataModel_skel plim pairs cache imgIdx DataType.Media
    orc1
  have hkeys := uploadDataModel_keysOf plim pairs cache imgIdx DataType.Media
    orc1
  by_cases h : imgIdx.isEmpty = true
  · have hstep : stage1part plim pairs orc1 orc2 orc3 pairsLen cache imgIdx
        animIdx metaIdx =
        stage2part plim pairs orc2 orc3 pairsLen cache [] 0 none imgIdx
          animIdx metaIdx := by
      simp only [stage1part]
      rw [if_neg (by simp [h])]
    rw [hstep] at hok ⊢
    exact stage2part_spec plim pairs orc2 orc3 pairsLen cache [] 0 none
      imgIdx animIdx metaIdx hok
  · rw [show stage1part plim pairs orc1 orc2 orc3 pairsLen cache imgIdx
        animIdx metaIdx = _ by simp only [stage1part]; rw [if_pos h]]
      at hok ⊢
    cases hu : (uploadDataModel plim pairs cache imgIdx DataType.Media
        orc1).result with
    | fatal e => rw [hu] at hok; simp at hok
    | panicRes m => rw [hu] at hok; simp at hok
    | okErrs es =>
        rw [hu] at hok
        dsimp only [] at hok ⊢
        by_cases hm : metaIdx.isEmpty = true
        · rw [if_neg (by simp [hm])] at hok ⊢
          rcases stage2part_spec plim pairs orc2 orc3 pairsLen _ _ _
            (some imgIdx) imgIdx animIdx metaIdx hok with ⟨c', hc1, hc2, hc3⟩
          exact ⟨c', hc1, skelRel_trans hskel hc2, hc3.trans hkeys⟩
        · rw [if_pos hm] at hok ⊢
          cases hrem : removeFailedImages
              (uploadDataModel plim pairs cache imgIdx DataType.Media
                orc1).cache imgIdx metaIdx with
          | error p => rw [hrem] at hok; simp at hok
          | ok meta' =>
              rw [hrem] at hok
              dsimp only [] at hok ⊢
              rcases stage2part_spec plim pairs orc2 orc3 pairsLen _ _ _
                (some imgIdx) imgIdx animIdx meta' hok with ⟨c', hc1, hc2, hc3⟩
              exact ⟨c', hc1, skelRel_trans hskel hc2, hc3.trans hkeys⟩

theorem processUploadModel_ok_not_aborted (plim : Nat)
    (metaOk : AssetPair → Bool) (pairs : List (Nat × AssetPair))
    (cache0 : Cache) (orc1 orc2 orc3 : Nat → Decision)
    (hok : (processUploadModel plim metaOk pairs cache0 orc1 orc2
      orc3).result = RunResult.okRun) :
    (changeDetect metaOk pairs cache0 ⟨[], [], []⟩).aborted = false := by
  by_contra hab
  rw [Bool.not_eq_false] at hab
  simp only [processUploadModel, hab, if_true] at hok
  cases hok

theorem processUploadModel_spec (plim : Nat) (metaOk : AssetPair → Bool)
    (pairs : List (Nat × AssetPair)) (cache0 : Cache)
    (orc1 orc2 orc3 : Nat → Decision)
    (hok : (processUploadModel plim metaOk pairs cache0 orc1 orc2
      orc3).result = RunResult.okRun) :
    ∃ c', (processUploadModel plim metaOk pairs cache0 orc1 orc2
        orc3).cache = sortCache c' ∧
      SkelRel (changeDetect metaOk pairs cache0 ⟨[], [], []⟩).cache c' ∧
      keysOf c' = keysOf (changeDetect metaOk pairs cache0
        ⟨[], [], []⟩).cache := by
  have hab := processUploadModel_ok_not_aborted plim metaOk pairs cache0 orc1
    orc2 orc3 hok
  simp only [processUploadModel, hab] at hok ⊢
  simp only [Bool.false_eq_true, if_false] at hok ⊢
  by_cases h1 : (changeDetect metaOk pairs cache0
        ⟨[], [], []⟩).indices.image.length >
      (changeDetect metaOk pairs cache0 ⟨[], [], []⟩).indices.metadata.length
  · rw [if_pos h1] at hok
    cases hok
  · rw [if_neg h1] at hok ⊢
    by_cases h2 : ¬ (changeDetect metaOk pairs cache0
          ⟨[], [], []⟩).indices.image.isEmpty = true ∨
        ¬ (changeDetect metaOk pairs cache0
          ⟨[], [], []⟩).indices.metadata.isEmpty = true ∨
        ¬ (changeDetect metaOk pairs cache0
          ⟨[], [], []⟩).indices.animation.isEmpty = true
    · rw [if_pos h2] at hok ⊢
      exact stage1part_spec plim pairs orc1 orc2 orc3 pairs.length _ _ _ _ hok
    · rw [if_neg h2]
      rw [reconcile_cache]
      exact ⟨(changeDetect metaOk pairs cache0 ⟨[], [], []⟩).cache, rfl,
        skelRel_refl _, rfl⟩

end StageSpecs

section HashInvariant

theorem detectStep_hashOK_self (i : Nat) (p : AssetPair) (c : Cache)
    (idx : AssetType) : HashOK (detectStep i p c idx).1 i p := by
  cases hg : cacheGet c i with
  | none =>
      have hstep : (detectStep i p c idx).1 =
          cacheInsert c i (intoCacheItem p) := by
        unfold detectStep
        rw [hg]
        simp only []
        split_ifs <;> rfl
      rw [hstep]
      exact ⟨intoCacheItem p, cacheGet_insert_self c i _, rfl, rfl,
        fun _ _ => rfl⟩
  | some item =>
      by_cases hbig : item.image_hash ≠ p.image_hash ∨ item.image_link = ""
      · have hstep : (detectStep i p c idx).1 =
            cacheInsert c i (intoCacheItem p) := by
          unfold detectStep
          rw [hg]
          simp only [if_pos hbig]
          split_ifs <;> rfl
        rw [hstep]
        exact ⟨intoCacheItem p, cacheGet_insert_self c i _, rfl, rfl,
          fun _ _ => rfl⟩
      · have him : item.image_hash = p.image_hash := by
          by_contra hne
          exact hbig (Or.inl hne)
        by_cases hanim : (if item.animation_hash.isSome &&
              item.animation_link.isSome then
            decide (item.animation_hash ≠ p.animation_hash) ||
              decide (item.animation_link = some "")
          else false) = true
        · have hstep : (detectStep i p c idx).1 =
              cacheInsert c i (intoCacheItem p) := by
            unfold detectStep
            rw [hg]
            simp only [if_neg hbig, if_pos hanim]
          rw [hstep]
          exact ⟨intoCacheItem p, cacheGet_insert_self c i _, rfl, rfl,
            fun _ _ => rfl⟩
        · have hcoh : item.animation_hash.isSome = true →
              item.animation_link.isSome = true →
              item.animation_hash = p.animation_hash := by
            intro hh hl
            by_contra hne
            apply hanim
            rw [hh, hl]
            simp [hne]
          by_cases hmeta : item.metadata_hash ≠ p.metadata_hash ∨
              item.metadata_link = ""
          · have hstep : (detectStep i p c idx).1 = cacheModify c i (fun it =>
                { it with
                    metadata_hash := p.metadata_hash
                    metadata_link := ""
                    on_chain := false }) := by
              unfold detectStep
              rw [hg]
              simp only [if_neg hbig, hanim, if_pos hmeta]
              rw [if_neg Bool.false_ne_true]
            rw [hstep]
            refine ⟨{ item with
                metadata_hash := p.metadata_hash
                metadata_link := ""
                on_chain := false }, ?_, him, rfl, ?_⟩
            · rw [cacheGet_modify_self, hg]
              rfl
            · intro hh hl
              exact hcoh hh hl
          · have hmd : item.metadata_hash = p.metadata_hash := by
              by_contra hne
              exact hmeta (Or.inl hne)
            have hstep : (detectStep i p c idx).1 = c := by
              unfold detectStep
              rw [hg]
              simp only [if_neg hbig, hanim, if_neg hmeta]
              rw [if_neg Bool.false_ne_true]
            rw [hstep]
            exact ⟨item, hg, him, hmd, hcoh⟩

theorem detectStep_get_other (i : Nat) (p : AssetPair) (c : Cache)
    (idx : AssetType) (j : Nat) (hne : j ≠ i) :
    cacheGet (detectStep i p c idx).1 j = cacheGet c j := by
  unfold detectStep
  cases hg : cacheGet c i with
  | none =>
      simp only []
      split_ifs <;> simp [cacheGet_insert_other c i j _ hne]
  | some item =>
      simp only []
      split_ifs <;>
        simp [cacheGet_insert_other c i j _ hne,
          cacheGet_modify_other c i j _ hne]

theorem changeDetect_get_notin (metaOk : AssetPair → Bool)
    (pairs : List (Nat × AssetPair)) :
    ∀ (c : Cache) (idx : AssetType) (j : Nat), (∀ ip ∈ pairs, ip.1 ≠ j) →
      cacheGet (changeDetect metaOk pairs c idx).cache j = cacheGet c j := by
  induction pairs with
  | nil => intro c idx j h; rfl
  | cons hd rest ih =>
      intro c idx j h
      cases hd with
      | mk i p =>
          have hij : j ≠ i :=
            fun hh => h (i, p) (List.mem_cons_self _ _) hh.symm
          have hrest : ∀ ip ∈ rest, ip.1 ≠ j :=
            fun ip hip => h ip (List.mem_cons_of_mem _ hip)
          by_cases hm : metaOk p
          · rw [show changeDetect metaOk ((i, p) :: rest) c idx =
                changeDetect metaOk rest (detectStep i p c idx).1
                  (detectStep i p c idx).2 by simp [changeDetect, hm]]
            rw [ih _ _ j hrest]
            exact detectStep_get_other i p c idx j hij
          · rw [show changeDetect metaOk ((i, p) :: rest) c idx =
                ⟨(detectStep i p c idx).1, (detectStep i p c idx).2, true⟩
                by simp [changeDetect, hm]]
            exact detectStep_get_other i p c idx j hij

theorem changeDetect_hashOK (metaOk : AssetPair → Bool)
    (pairs : List (Nat × AssetPair)) :
    ∀ (c : Cache) (idx : AssetType), (pairs.map Prod.fst).Nodup →
      (changeDetect metaOk pairs c idx).aborted = false →
      ∀ ip ∈ pairs, HashOK (changeDetect metaOk pairs c idx).cache ip.1
        ip.2 := by
  induction pairs with
  | nil => intro c idx _ _ ip hip; simp at hip
  | cons hd rest ih =>
      intro c idx hnd hab ip hip
      cases hd with
      | mk i p =>
          rw [List.map_cons, List.nodup_cons] at hnd
          by_cases hm : metaOk p
          · rw [show changeDetect metaOk ((i, p) :: rest) c idx =
                changeDetect metaOk rest (detectStep i p c idx).1
                  (detectStep i p c idx).2 by simp [changeDetect, hm]] at hab ⊢
            rcases List.mem_cons.mp hip with heq | hmem
            · subst heq
              obtain ⟨it, hit, h1, h2, h3⟩ := detectStep_hashOK_self i p c idx
              refine ⟨it, ?_, h1, h2, h3⟩
              rw [changeDetect_get_notin metaOk rest _ _ i ?_]
              · exact hit
              · intro q hq hcon
                exact hnd.1 (List.mem_map.mpr ⟨q, hq, hcon⟩)
            · exact ih _ _ hnd.2 hab ip hmem
          · rw [show changeDetect metaOk ((i, p) :: rest) c idx =
                ⟨(detectStep i p c idx).1, (detectStep i p c idx).2, true⟩
                by simp [changeDetect, hm]] at hab
            cases hab

end HashInvariant

section NoopRun

theorem detectStep_noop (i : Nat) (p : AssetPair) (c : Cache)
    (idx : AssetType) (h : GoodItem c i p) :
    detectStep i p c idx = (c, idx) := by
  obtain ⟨it, hget, him, hlink, hmd, hmdl, hcoh, hal⟩ := h
  have hbig : ¬ (it.image_hash ≠ p.image_hash ∨ it.image_link = "") := by
    rintro (hh | hh)
    · exact hh him
    · exact hlink hh
  have hanim : (if it.animation_hash.isSome && it.animation_link.isSome then
      decide (it.animation_hash ≠ p.animation_hash) ||
        decide (it.animation_link = some "")
    else false) = false := by
    by_cases hb : (it.animation_hash.isSome && it.animation_link.isSome) = true
    · rw [if_pos hb]
      rw [Bool.and_eq_true] at hb
      have heq := hcoh hb.1 hb.2
      simp [heq, hal]
    · rw [if_neg hb]
  have hmeta : ¬ (it.metadata_hash ≠ p.metadata_hash ∨
      it.metadata_link = "") := by
    rintro (hh | hh)
    · exact hh hmd
    · exact hmdl hh
  unfold detectStep
  rw [hget]
  simp only [if_neg hbig, hanim, if_neg hmeta]
  simp

theorem changeDetect_noop (metaOk : AssetPair → Bool)
    (pairs : List (Nat × AssetPair)) :
    ∀ (c : Cache) (idx : AssetType),
      (∀ ip ∈ pairs, GoodItem c ip.1 ip.2) →
      (changeDetect metaOk pairs c idx).cache = c ∧
      (changeDetect metaOk pairs c idx).indices = idx := by
  induction pairs with
  | nil => intro c idx h; exact ⟨rfl, rfl⟩
  | cons hd rest ih =>
      intro c idx h
      cases hd with
      | mk i p =>
          have hstep := detectStep_noop i p c idx
            (h (i, p) (List.mem_cons_self _ _))
          by_cases hm : metaOk p
          · rw [show changeDetect metaOk ((i, p) :: rest) c idx =
                changeDetect metaOk rest (detectStep i p c idx).1
                  (detectStep i p c idx).2 by simp [changeDetect, hm]]
            rw [hstep]
            exact ih c idx (fun ip hip => h ip (List.mem_cons_of_mem _ hip))
          · rw [show changeDetect metaOk ((i, p) :: rest) c idx =
                ⟨(detectStep i p c idx).1, (detectStep i p c idx).2, true⟩
                by simp [changeDetect, hm]]
            rw [hstep]
            exact ⟨rfl, rfl⟩

end NoopRun

/-- C8: if a run completes successfully, in the sense that it returned
success and every current asset ends with non-empty image and metadata links
and a non-empty animation link whenever one is present, and no file contents
change before the next run, then change detection on the second run over the
same asset pairs and the resulting cache schedules zero image, metadata and
animation uploads.  Cache and asset maps have unique keys, as the IndexMap
and HashMap of the source guarantee. -/
theorem claim8_idempotent_second_run (plim : Nat) (metaOk : AssetPair → Bool)
    (pairs : List (Nat × AssetPair)) (cache0 : Cache)
    (orc1 orc2 orc3 : Nat → Decision)
    (hwf : (keysOf cache0).Nodup) (hpwf : (pairs.map Prod.fst).Nodup)
    (hok : (processUploadModel plim metaOk pairs cache0 orc1 orc2
      orc3).result = RunResult.okRun)
    (hsucc : ∀ ip ∈ pairs, ∀ it : CacheItem,
      cacheGet (processUploadModel plim metaOk pairs cache0 orc1 orc2
        orc3).cache ip.1 = some it →
      it.image_link ≠ "" ∧ it.metadata_link ≠ "" ∧
        it.animation_link ≠ some "") :
    (changeDetect metaOk pairs (processUploadModel plim metaOk pairs cache0
      orc1 orc2 orc3).cache ⟨[], [], []⟩).indices = ⟨[], [], []⟩ := by
  have hab := processUploadModel_ok_not_aborted plim metaOk pairs cache0 orc1
    orc2 orc3 hok
  have hhash := changeDetect_hashOK metaOk pairs cache0 ⟨[], [], []⟩ hpwf hab
  obtain ⟨c', hc1, hc2, hc3⟩ := processUploadModel_spec plim metaOk pairs
    cache0 orc1 orc2 orc3 hok
  have hnodet : (keysOf (changeDetect metaOk pairs cache0
      ⟨[], [], []⟩).cache).Nodup :=
    changeDetect_nodup metaOk pairs cache0 ⟨[], [], []⟩ hwf
  have hnodc : (keysOf c').Nodup := by
    rw [hc3]
    exact hnodet
  have hgetout : ∀ k, cacheGet (processUploadModel plim metaOk pairs cache0
      orc1 orc2 orc3).cache k = cacheGet c' k := by
    intro k
    rw [hc1]
    exact cacheGet_sortCache c' hnodc k
  have hgood : ∀ ip ∈ pairs, GoodItem (processUploadModel plim metaOk pairs
      cache0 orc1 orc2 orc3).cache ip.1 ip.2 := by
    intro ip hip
    obtain ⟨a, hga, hai, ham, hacoh⟩ := hhash ip hip
    rcases hc2 ip.1 with ⟨hn1, _⟩ | ⟨a', b, ha', hb, hskel⟩
    · rw [hga] at hn1
      cases hn1
    · rw [hga] at ha'
      have haa : a = a' := Option.some.inj ha'
      subst haa
      have hbout : cacheGet (processUploadModel plim metaOk pairs cache0 orc1
          orc2 orc3).cache ip.1 = some b := by
        rw [hgetout]
        exact hb
      obtain ⟨hl1, hl2, hl3⟩ := hsucc ip hip b hbout
      obtain ⟨hbi, hbm, hbah, hbal⟩ := hskel
      refine ⟨b, hbout, ?_, hl1, ?_, hl2, ?_, hl3⟩
      · rw [hbi, hai]
      · rw [hbm, ham]
      · intro hh hl
        rw [hbah] at hh ⊢
        rw [hbal] at hl
        exact hacoh hh hl
  exact (changeDetect_noop metaOk pairs _ ⟨[], [], []⟩ hgood).2

/-- Witness for claim8_idempotent_second_run: one new asset uploaded fully
successfully; the second run schedules nothing. -/
theorem claim8_idempotent_second_run_witness :
    (changeDetect (fun _ => true) [(0, samplePair 0)]
      (processUploadModel 2 (fun _ => true) [(0, samplePair 0)] [] orcOk orcOk
        orcOk).cache ⟨[], [], []⟩).indices = ⟨[], [], []⟩ := by
  refine claim8_idempotent_second_run 2 (fun _ => true) [(0, samplePair 0)]
    [] orcOk orcOk orcOk (by decide) (by decide) (by decide) ?_
  intro ip hip it hget
  have hip0 : ip = (0, samplePair 0) := by
    simpa using hip
  subst hip0
  have hc : cacheGet (processUploadModel 2 (fun _ => true)
      [(0, samplePair 0)] [] orcOk orcOk orcOk).cache 0 =
      some ⟨"h0", "L", "m0", "L", none, none, false⟩ := by decide
  rw [hc] at hget
  have hit : it = ⟨"h0", "L", "m0", "L", none, none, false⟩ :=
    (Option.some.inj hget).symm
  subst hit
  exact ⟨by decide, by decide, by decide⟩
